import Mathlib

/-!
The commands `unity dockexec` and `unity test` of cue-lang/unity.

A shallow embedding of `cmd/unity/cmd/dockexec.go` and of the head of
`cmd/unity/cmd/test.go`, followed by the properties proved about them.

Go strings are Lean `String`s; the character-level library routines
(`regexp`, `path`, `path/filepath`) work on `List Char`.  Everything the
commands obtain from the operating system or from a subprocess is read from an
explicit `World` record, and every externally visible action is appended to a
list of `Event`s, so that "what happened before the command returned" is a
value one can state theorems about.
-/

namespace Unity

open RegularExpression

/-! ## Strings -/

/-- Go `strings.HasPrefix(s, pre)`. -/
def hasPrefix (s pre : String) : Bool :=
  pre.toList.isPrefixOf s.toList

/-- Go `strings.HasSuffix(s, suf)`. -/
def hasSuffix (s suf : String) : Bool :=
  suf.toList.isSuffixOf s.toList

/-! ## The regular expression `rxBinary`

`regexp.MustCompile` is embedded as a term of Mathlib's `RegularExpression Char`;
`x?` is `x + 1`, `x+` is `x * star x`, and a character class is the sum of its
characters. -/

/-- A literal string as a regular expression. -/
def rxLit (s : String) : RegularExpression Char :=
  s.toList.foldr (fun c r => char c * r) 1

/-- The character class `[lo-hi]`. -/
def rxRange (lo hi : Char) : RegularExpression Char :=
  ((List.range (hi.toNat + 1 - lo.toNat)).map fun i => char (Char.ofNat (lo.toNat + i))).foldr
    (fun a r => a + r) 0

/-- The regular expression `r?`. -/
def rxOpt (r : RegularExpression Char) : RegularExpression Char := r + 1

/-- The regular expression `r+`. -/
def rxPlus (r : RegularExpression Char) : RegularExpression Char := r * star r

/-- The character class `[a-zA-Z0-9_]`. -/
def rxWord : RegularExpression Char :=
  rxRange 'a' 'z' + rxRange 'A' 'Z' + rxRange '0' '9' + char '_'

/-- The pattern of `dockexecDef`:
`\.test(\.exe)?$|/exe/[a-zA-Z0-9_]+(\.[a-zA-Z0-9_]+)?(\.exe)?$`.
Both alternatives end in `$` (end of text, the pattern has no `m` flag); the
anchor is realised by `matchString`, which matches up to the end of the text. -/
def rxBinary : RegularExpression Char :=
  rxLit ".test" * rxOpt (rxLit ".exe")
  + rxLit "/exe/" * rxPlus rxWord * rxOpt (char '.' * rxPlus rxWord) * rxOpt (rxLit ".exe")

/-- Go `re.MatchString(s)` for a pattern all of whose alternatives end in `$`:
the match may start anywhere and has to reach the end of `s`. -/
def matchString (re : RegularExpression Char) (s : String) : Bool :=
  s.toList.tails.any fun t => re.rmatch t

/-! ## Splitting the arguments of `dockexec` -/

/-- The loop condition `!strings.HasPrefix(arg, "-") && rxBinary.MatchString(arg)`. -/
def isBinaryArg (arg : String) : Bool :=
  !hasPrefix arg "-" && matchString rxBinary arg

/-- The three variables `dockerFlags`, `binary`, `testFlags` of `dockexecDef`. -/
structure Split where
  dockerFlags : List String
  binary : String
  testFlags : List String
  deriving DecidableEq, Repr

/-- The loop `for i, arg := range args` of `dockexecDef`, entered at index `i` with
`rest = args[i:]`; the variables keep their zero values when no argument is chosen. -/
def splitFrom (args : List String) : Nat → List String → Split
  | _, [] => ⟨[], "", []⟩
  | i, arg :: rest =>
    if isBinaryArg arg then ⟨args.take i, arg, args.drop (i + 1)⟩
    else splitFrom args (i + 1) rest

/-- The split computed by `dockexecDef` on `args` (the arguments after the image). -/
def splitArgs (args : List String) : Split :=
  splitFrom args 0 args

/-! ## `path.Clean`, `path.Join`, `filepath.Rel`

These are the routines of the Go standard library that `buildDockerFlags` calls,
in their Unix form (separator `/`, no volume names). -/

/-- The test `r == n || path[r] == '/'` on the unread part of the path. -/
def atSegEnd : List Char → Bool
  | [] => true
  | c :: _ => c == '/'

/-- The inner loop `for out.w > dotdot && out.index(out.w) != '/' { out.w-- }` of
`path.Clean`, on the write index `w`; `buf` is the buffer before the backtrack. -/
def backtrack (buf : List Char) (dotdot : Nat) : Nat → Nat
  | 0 => 0
  | w + 1 => if dotdot < w + 1 ∧ buf.get? (w + 1) ≠ some '/' then backtrack buf dotdot w else w + 1

/-- The statements `out.w--; for ... { out.w-- }` of `path.Clean`: drop the last element. -/
def popElem (out : List Char) (dotdot : Nat) : List Char :=
  out.take (backtrack out dotdot (out.length - 1))

/-- The main loop of `path.Clean`: `rem` is `path[r:]`, `out` the written part of the
buffer.  Every iteration reads at least one byte, so `fuel = len(path)` iterations
are enough. -/
def cleanLoop (rooted : Bool) : Nat → List Char → List Char → Nat → List Char
  | 0, _, out, _ => out
  | _ + 1, [], out, _ => out
  | fuel + 1, c :: rest, out, dotdot =>
    if c = '/' then
      cleanLoop rooted fuel rest out dotdot
    else if c = '.' ∧ atSegEnd rest = true then
      cleanLoop rooted fuel rest out dotdot
    else if c = '.' ∧ rest.head? = some '.' ∧ atSegEnd (rest.drop 1) = true then
      if dotdot < out.length then
        cleanLoop rooted fuel (rest.drop 1) (popElem out dotdot) dotdot
      else if rooted = false then
        cleanLoop rooted fuel (rest.drop 1)
          ((if 0 < out.length then out ++ ['/'] else out) ++ ['.', '.'])
          ((if 0 < out.length then out ++ ['/'] else out) ++ ['.', '.']).length
      else
        cleanLoop rooted fuel (rest.drop 1) out dotdot
    else
      cleanLoop rooted fuel ((c :: rest).dropWhile (fun x => x != '/'))
        ((if (rooted = true ∧ out.length ≠ 1) ∨ (rooted = false ∧ out.length ≠ 0)
            then out ++ ['/'] else out) ++ (c :: rest).takeWhile (fun x => x != '/'))
        dotdot

/-- Go `path.Clean` (and `filepath.Clean` on Unix). -/
def pathClean (path : List Char) : List Char :=
  if path = [] then ['.']
  else
    let rooted : Bool := path.head? = some '/'
    let out := cleanLoop rooted path.length path (if rooted then ['/'] else [])
      (if rooted then 1 else 0)
    if out = [] then ['.'] else out

/-- The buffer built by `path.Join` before it is cleaned: the non-empty elements
separated by `/`. -/
def joinBuf : List Char → List (List Char) → List Char
  | buf, [] => buf
  | buf, e :: es =>
    if buf ≠ [] ∨ e ≠ [] then joinBuf ((if buf ≠ [] then buf ++ ['/'] else buf) ++ e) es
    else joinBuf buf es

/-- Go `path.Join`. -/
def pathJoin (elem : List (List Char)) : List Char :=
  if (elem.map List.length).sum = 0 then [] else pathClean (joinBuf [] elem)

/-- The loop of `filepath.Rel` that skips the common leading elements.  `b` is
`base[b0:]` and `t` is `targ[t0:]`; the result is `(base[b0:], base[b0:bi], targ[t0:])`
when the loop is left. -/
def relLoop : Nat → List Char → List Char → List Char × List Char × List Char
  | 0, b, t => (b, [], t)
  | fuel + 1, b, t =>
    if b = [] ∨ t = [] then (b, [], t)
    else if t.takeWhile (fun x => x != '/') ≠ b.takeWhile (fun x => x != '/') then
      (b, b.takeWhile (fun x => x != '/'), t)
    else
      relLoop fuel ((b.dropWhile (fun x => x != '/')).drop 1)
        ((t.dropWhile (fun x => x != '/')).drop 1)

/-- The text `".." + "/.."*seps` written by `filepath.Rel` when base elements are left. -/
def dotdots : Nat → List Char
  | 0 => ['.', '.']
  | n + 1 => dotdots n ++ ['/', '.', '.']

/-- Go `filepath.Rel(basepath, targpath)` on Unix; `none` is the error
`Rel: can't make targpath relative to basepath`. -/
def filepathRel (basepath targpath : List Char) : Option (List Char) :=
  let base0 := pathClean basepath
  let targ := pathClean targpath
  if targ = base0 then some ['.']
  else
    let base := if base0 = ['.'] then [] else base0
    let baseSlashed : Bool := base.head? = some '/'
    let targSlashed : Bool := targ.head? = some '/'
    if baseSlashed ≠ targSlashed then none
    else
      match relLoop (base.length + 1) base targ with
      | (bRem, seg, tRem) =>
        if seg = ['.', '.'] then none
        else if bRem ≠ [] then
          some (dotdots (bRem.count '/') ++ (if tRem ≠ [] then '/' :: tRem else []))
        else some tRem

/-! ## The world seen by `dockexec` -/

/-- The fields of the `go env -json` output that `buildDockerFlags` decodes. -/
structure GoEnv where
  GOMODCACHE : String
  GOCACHE : String
  GOMOD : String
  deriving DecidableEq, Repr

/-- The fields of the `go list -m -json` output that `buildDockerFlags` decodes. -/
structure GoMod where
  Path : String
  Dir : String
  deriving DecidableEq, Repr

/-- The outcome of `exec.Command(...).CombinedOutput()` followed by `json.Unmarshal`. -/
inductive CmdResult (α : Type) where
  | ok (v : α)
  | runError (err out : String)
  | badJSON (err : String)
  deriving DecidableEq, Repr

/-- The errors `dockexecDef` and `buildDockerFlags` return. -/
inductive Err where
  /-- The text `incorrect number of arguments`. -/
  | incorrectArgs
  /-- The text `could not find the test binary argument`. -/
  | noBinary
  /-- An error of `os.MkdirTemp`, `os.UserHomeDir` or `cmd.Run`, returned as it is. -/
  | os (err : String)
  /-- The text `failed to run <cmd>: <err>\n<out>`. -/
  | runFailed (cmd err out : String)
  /-- The text `failed to unmarshal <cmd> output: <err>`. -/
  | unmarshalFailed (cmd err : String)
  /-- The text `failed to get working directory: <err>`. -/
  | getwdFailed (err : String)
  /-- The text `failed to determine <wd> relative to <dir>: <err>`. -/
  | relFailed (wd dir : String)
  deriving DecidableEq, Repr

/-- The externally visible actions of `dockexec`, in the order they happen. -/
inductive Event where
  /-- The call `os.MkdirTemp("", "dockexec-home")`. -/
  | mkdirTemp
  /-- The deferred `os.RemoveAll(dir)`. -/
  | removeAll (dir : String)
  /-- The warning `fmt.Println(err)` of the deferred function. -/
  | println (err : String)
  /-- A subprocess `prog args...` is run. -/
  | exec (prog : String) (args : List String)
  deriving DecidableEq, Repr

/-- What the host gives `dockexec`: the operating system, the identity of the user,
the package variable `fCompose`, and the results of the system calls and
subprocesses the command makes. -/
structure World where
  /-- The constant `runtime.GOOS`. -/
  goos : String
  /-- The result of `syscall.Getuid()`. -/
  uid : Int
  /-- The result of `syscall.Getgid()`. -/
  gid : Int
  /-- The value `*fCompose`. -/
  fCompose : Bool
  /-- The result of `os.MkdirTemp("", "dockexec-home")`. -/
  mkdirTemp : Except String String
  /-- The error, if any, of `os.RemoveAll`. -/
  removeAll : String → Option String
  /-- The result of `os.UserHomeDir()`. -/
  userHomeDir : Except String String
  /-- The decoded result of `go env -json`. -/
  goEnv : CmdResult GoEnv
  /-- The result of `os.Getwd()`. -/
  getwd : Except String String
  /-- The decoded result of `go list -m -json`. -/
  goListM : CmdResult GoMod
  /-- The result of `cmd.Run()` for the docker command. -/
  run : String → List String → Option String

/-- The constant `os.DevNull`. -/
def devNull (goos : String) : String :=
  if goos = "windows" then "NUL" else "/dev/null"

/-! ## `buildDockerFlags` -/

/-- The first `res = append(res, ...)` of `buildDockerFlags`: the two cache mounts. -/
def cacheFlags (env : GoEnv) : List String :=
  ["--volume=" ++ env.GOMODCACHE ++ ":/gomodcache", "-e", "GOMODCACHE=/gomodcache",
   "--volume=" ++ env.GOCACHE ++ ":/gocache", "-e", "GOCACHE=/gocache"]

/-- The function `buildDockerFlags`: its result and the subprocesses it ran. -/
def buildDockerFlags (w : World) : Except Err (List String) × List Event :=
  match w.goEnv with
  | .runError err out => (.error (.runFailed "go env -json" err out), [.exec "go" ["env", "-json"]])
  | .badJSON err => (.error (.unmarshalFailed "go env -json" err), [.exec "go" ["env", "-json"]])
  | .ok env =>
    match w.getwd with
    | .error err => (.error (.getwdFailed err), [.exec "go" ["env", "-json"]])
    | .ok wd =>
      if env.GOMOD ≠ "" ∧ env.GOMOD ≠ devNull w.goos then
        match w.goListM with
        | .runError err out =>
          (.error (.runFailed "go list -m -json" err out),
            [.exec "go" ["env", "-json"], .exec "go" ["list", "-m", "-json"]])
        | .badJSON err =>
          (.error (.unmarshalFailed "go list -m -json" err),
            [.exec "go" ["env", "-json"], .exec "go" ["list", "-m", "-json"]])
        | .ok mod =>
          match filepathRel mod.Dir.toList wd.toList with
          | none =>
            (.error (.relFailed wd mod.Dir),
              [.exec "go" ["env", "-json"], .exec "go" ["list", "-m", "-json"]])
          | some rel =>
            (.ok (cacheFlags env ++
                ["--volume=" ++ mod.Dir ++ ":/start",
                 "--workdir=" ++ String.mk (pathJoin ["/start".toList, rel])]),
              [.exec "go" ["env", "-json"], .exec "go" ["list", "-m", "-json"]])
      else
        (.ok (cacheFlags env ++ ["--volume=" ++ wd ++ ":/start", "--workdir=/start"]),
          [.exec "go" ["env", "-json"]])

/-! ## `dockexecDef` -/

/-- The literal `allDockerArgs := []string{...}` of `dockexecDef` together with the
`-e HOME=...` pair appended right after it. -/
def fixedArgs (w : World) (binary tempHome realHome : String) : List String :=
  ["run", "--rm",
   "--volume=" ++ binary ++ ":/init", "--entrypoint=/init",
   "--user=" ++ toString w.uid ++ ":" ++ toString w.gid,
   "--volume=/etc/passwd:/etc/passwd:ro", "--volume=/etc/group:/etc/group:ro",
   "--volume=" ++ tempHome ++ ":" ++ realHome]
  ++ (if w.goos ≠ "windows" then ["-e", "HOME=" ++ realHome]
      else ["-e", "USERPROFILE=" ++ realHome])

/-- The argument vector `allDockerArgs` handed to `exec.Command`. -/
def allDockerArgs (w : World) (image : String) (sp : Split) (tempHome realHome : String)
    (contextDockerFlags : List String) : List String :=
  fixedArgs w sp.binary tempHome realHome ++ contextDockerFlags ++ sp.dockerFlags
    ++ (if w.fCompose = false then ["--"] else []) ++ [image] ++ sp.testFlags

/-- The events of the deferred function of `dockexecDef`. -/
def cleanup (w : World) (tempHome : String) : List Event :=
  match w.removeAll tempHome with
  | none => [.removeAll tempHome]
  | some err => [.removeAll tempHome, .println err]

/-- The function `dockexecDef`: the error it returns (`none` for `nil`) and the
events it caused, oldest first. -/
def dockexecDef (w : World) (args : List String) : Option Err × List Event :=
  match args with
  | [] => (some .incorrectArgs, [])
  | [_] => (some .incorrectArgs, [])
  | image :: arg :: more =>
    let sp := splitArgs (arg :: more)
    if sp.binary = "" then (some .noBinary, [])
    else
      match w.mkdirTemp with
      | .error err => (some (.os err), [.mkdirTemp])
      | .ok tempHome =>
        match w.userHomeDir with
        | .error err => (some (.os err), .mkdirTemp :: cleanup w tempHome)
        | .ok realHome =>
          match buildDockerFlags w with
          | (.error err, evs) => (some err, .mkdirTemp :: evs ++ cleanup w tempHome)
          | (.ok contextDockerFlags, evs) =>
            let prog := if w.fCompose then "docker-compose" else "docker"
            let argv := allDockerArgs w image sp tempHome realHome contextDockerFlags
            ((w.run prog argv).map Err.os,
              .mkdirTemp :: evs ++ [.exec prog argv] ++ cleanup w tempHome)

/-! ## `unity test`: the command `testDef` -/

/-- The constant `dockerImage`. -/
def dockerImage : String :=
  "docker.io/cueckoo/unity:72a5a022b434a768e8c5ae5be7082d780211accd"

/-- Go `unicode.IsSpace`. -/
def isSpace (c : Char) : Bool :=
  c.toNat ∈ [0x09, 0x0A, 0x0B, 0x0C, 0x0D, 0x20, 0x85, 0xA0, 0x1680, 0x2028, 0x2029, 0x202F,
    0x205F, 0x3000] || (0x2000 ≤ c.toNat && c.toNat ≤ 0x200A)

/-- Go `strings.TrimSpace`. -/
def trimSpace (s : String) : String :=
  String.mk ((s.toList.dropWhile isSpace).reverse.dropWhile isSpace).reverse

/-- The values of the flags of the command `c` that `testDef` reads. -/
structure Command where
  flagDebug : Bool
  flagTestUpdate : Bool
  flagTestCorpus : Bool
  flagTestDir : String
  flagTestVerbose : Bool
  flagTestNoPath : Bool
  flagTestOverlay : String
  flagTestUnsafe : Bool
  flagTestStaged : Bool
  flagTestIgnoreDirty : Bool
  flagTestSelf : String
  deriving DecidableEq, Repr

/-- The fields of the `moduleTester` literal built by `testDef` that vary from run to
run (the resolver, the build helper and the CUE runtime are part of the world). -/
structure ModuleTester where
  self : String
  image : String
  gitRoot : String
  overlayDir : String
  unsafeRun : Bool
  update : Bool
  staged : Bool
  ignoreDirty : Bool
  verbose : Bool
  deriving DecidableEq, Repr

/-- The result of `testCorpus` or `testProject`. -/
inductive RunResult where
  | pass
  /-- An error for which `errors.Is(err, errTestFail)` holds. -/
  | testFail
  | failed (err : String)
  deriving DecidableEq, Repr

/-- The errors `testDef` returns. -/
inductive TestErr where
  /-- The text `could not create version resolver: <err>`. -/
  | resolverCreate (err : String)
  /-- The text `failed to pre-resolve versions <args>: <err>`. -/
  | preResolve (args : List String) (err : String)
  /-- The text `failed to determine git root: <err>`. -/
  | gitRoot (err : String)
  /-- The text `failed to load embedded unity instance: <err>`. -/
  | loadInstance (err : String)
  /-- The text `failed to resolve #Manifest definition: <err>`. -/
  | manifest (err : String)
  /-- The text `failed to find overlay directory <dir>: <err>`. -/
  | overlayFind (dir err : String)
  /-- The text `overlay directory <dir> is not a directory`. -/
  | overlayNotDir (dir : String)
  /-- The text `failed to make path <dir> absolute: <err>`. -/
  | overlayAbs (dir err : String)
  /-- The text `failed to create build helper: <err>`. -/
  | buildHelper (err : String)
  /-- The text `failed inspect docker image <image>: <err>`. -/
  | inspectImage (image err : String)
  /-- The text `failed to create a temp directory for self build: <err>`. -/
  | selfTempDir (err : String)
  /-- The text `failed to derive path to self: <err>`. -/
  | pathToSelf (err : String)
  /-- The error `errTestFail`, returned by `testCorpus`. -/
  | testFail
  /-- Any other error of `testCorpus` or `testProject`, returned as it is. -/
  | tests (err : String)
  deriving DecidableEq, Repr

/-- The externally visible actions of `testDef`, in the order they happen. -/
inductive TestEvent where
  | newVersionResolver (allowPATH : Bool)
  /-- One `eg.Go(func() error { _, err := vr.resolve(v); return err })`. -/
  | goResolve (v : String)
  | gitDir (dir : String)
  | loadInstance
  | statOverlay (dir : String)
  | newBuildHelper
  | targetDocker (image : String)
  | tempDir
  | pathToSelf (selfDir td : String)
  | testCorpus (args : List String)
  | testProject (args : List String)
  /-- The deferred `os.RemoveAll(td)`. -/
  | removeAll (td : String)
  /-- The deferred `bh.cache.Trim()`. -/
  | cacheTrim
  /-- The call `exit()`. -/
  | exit
  deriving DecidableEq, Repr

/-- How `testDef` ends: it returns an error value (`none` for `nil`), or it is left
through `exit()`. -/
inductive Outcome where
  | returned (err : Option TestErr)
  | exited
  deriving DecidableEq, Repr

/-- The collaborators of `testDef`.  They are declared in other files of the package;
each is given by the result it produces. -/
structure TestWorld where
  /-- The error of `newVersionResolver(allowPATH)`, `none` for `nil`. -/
  newVersionResolver : Bool → Option String
  /-- The result of `vr.resolve(v)`. -/
  resolve : String → Except String String
  /-- The order in which the functions started by `eg.Go` return, as indices into `args`. -/
  finishOrder : List Nat
  /-- The result of `gitDir(dir, "rev-parse", "--show-toplevel")`. -/
  gitDir : String → Except String String
  /-- The error of `r.Unmarshal(unity.InstanceData)`. -/
  loadInstance : Option String
  /-- The value of `manifestDef.Err()`. -/
  manifestErr : Option String
  /-- The result of `os.Stat(dir)`, reduced to `fi.IsDir()`. -/
  stat : String → Except String Bool
  /-- The result of `filepath.Abs(dir)`. -/
  abs : String → Except String String
  /-- The error of `newBuildHelper()`. -/
  newBuildHelper : Option String
  /-- The error of `bh.targetDocker(image)`. -/
  targetDocker : String → Option String
  /-- The result of `ioutil.TempDir("", "unity-self-dir")`. -/
  tempDir : Except String String
  /-- The result of `bh.pathToSelf(selfDir, td, false)`. -/
  pathToSelf : String → String → Except String String
  /-- The result of `testCorpus(c, mt, args)`. -/
  testCorpus : ModuleTester → List String → RunResult
  /-- The result of `testProject(c, mt, args)`. -/
  testProject : ModuleTester → List String → RunResult

/-- The value `eg.Wait()` returns: all started functions have returned, and the error
kept by the group is that of the first one that returned an error. -/
def egWait (finishOrder : List Nat) (results : List (Except String String)) : Option String :=
  finishOrder.findSome? fun i =>
    match results.get? i with
    | some (.error err) => some err
    | _ => none

/-- Lines 86-94 of `testDef`: one `eg.Go` per element of `args`, then `eg.Wait()`. -/
def preResolve (w : TestWorld) (args : List String) : Option String × List TestEvent :=
  (egWait w.finishOrder (args.map w.resolve), args.map TestEvent.goResolve)

/-- Modelled from the spec: `exit()` is declared in another file of the package.  The
specification has the temporary directories removed on every exit path, success,
ordinary failure or panic-equivalent, so the deferred calls `evs` are run however the
body `r` ends. -/
def withDeferred (evs : List TestEvent) (r : Outcome × List TestEvent) :
    Outcome × List TestEvent :=
  (r.1, r.2 ++ evs)

/-- Lines 178-202 of `testDef`: build the module tester and run the tests. -/
def runTests (w : TestWorld) (c : Command) (args : List String) (self gitRoot overlayDir : String) :
    Outcome × List TestEvent :=
  let mt : ModuleTester :=
    { self := self, image := dockerImage, gitRoot := gitRoot, overlayDir := overlayDir,
      unsafeRun := c.flagTestUnsafe, update := c.flagTestUpdate, staged := c.flagTestStaged,
      ignoreDirty := c.flagTestIgnoreDirty, verbose := c.flagTestVerbose }
  if c.flagTestCorpus then
    match w.testCorpus mt args with
    | .pass => (.returned none, [.testCorpus args])
    | .testFail => (.returned (some .testFail), [.testCorpus args])
    | .failed err => (.returned (some (.tests err)), [.testCorpus args])
  else
    match w.testProject mt args with
    | .pass => (.returned none, [.testProject args])
    | .testFail => (.exited, [.testProject args, .exit])
    | .failed err => (.returned (some (.tests err)), [.testProject args])

/-- Lines 160-176 of `testDef`: in safe mode inspect the docker image and build self. -/
def withSelf (w : TestWorld) (c : Command) (args : List String)
    (selfDir gitRoot overlayDir : String) : Outcome × List TestEvent :=
  if c.flagTestUnsafe = false then
    match w.targetDocker dockerImage with
    | some err => (.returned (some (.inspectImage dockerImage err)), [.targetDocker dockerImage])
    | none =>
      match w.tempDir with
      | .error err => (.returned (some (.selfTempDir err)), [.targetDocker dockerImage, .tempDir])
      | .ok td =>
        match w.pathToSelf selfDir td with
        | .error err =>
          (.returned (some (.pathToSelf err)),
            [.targetDocker dockerImage, .tempDir, .pathToSelf selfDir td, .removeAll td])
        | .ok self =>
          let r := withDeferred [.removeAll td] (runTests w c args self gitRoot overlayDir)
          (r.1, [.targetDocker dockerImage, .tempDir, .pathToSelf selfDir td] ++ r.2)
  else runTests w c args "" gitRoot overlayDir

/-- Lines 137-158 of `testDef`: check the overlay directory and create the build helper. -/
def withOverlay (w : TestWorld) (c : Command) (args : List String) (selfDir gitRoot : String) :
    Outcome × List TestEvent :=
  let build (overlayDir : String) (evs : List TestEvent) : Outcome × List TestEvent :=
    match w.newBuildHelper with
    | some err => (.returned (some (.buildHelper err)), evs ++ [.newBuildHelper])
    | none =>
      let r := withDeferred [.cacheTrim] (withSelf w c args selfDir gitRoot overlayDir)
      (r.1, evs ++ [.newBuildHelper] ++ r.2)
  if c.flagTestOverlay ≠ "" then
    match w.stat c.flagTestOverlay with
    | .error err =>
      (.returned (some (.overlayFind c.flagTestOverlay err)), [.statOverlay c.flagTestOverlay])
    | .ok isDir =>
      if isDir = false then
        (.returned (some (.overlayNotDir c.flagTestOverlay)), [.statOverlay c.flagTestOverlay])
      else
        match w.abs c.flagTestOverlay with
        | .error err =>
          (.returned (some (.overlayAbs c.flagTestOverlay err)),
            [.statOverlay c.flagTestOverlay])
        | .ok abs => build abs [.statOverlay c.flagTestOverlay]
  else build "" []

/-- Lines 98-135 of `testDef`: find the git root and load the `#Manifest` definition. -/
def afterResolve (w : TestWorld) (c : Command) (args : List String) : Outcome × List TestEvent :=
  let dir := c.flagTestDir
  let selfDir := if c.flagTestSelf = "" then dir else c.flagTestSelf
  match w.gitDir dir with
  | .error err => (.returned (some (.gitRoot err)), [.gitDir dir])
  | .ok gitRoot =>
    match w.loadInstance with
    | some err => (.returned (some (.loadInstance err)), [.gitDir dir, .loadInstance])
    | none =>
      match w.manifestErr with
      | some err => (.returned (some (.manifest err)), [.gitDir dir, .loadInstance])
      | none =>
        let r := withOverlay w c args selfDir (trimSpace gitRoot)
        (r.1, [.gitDir dir, .loadInstance] ++ r.2)

/-- The function `testDef`: how it ends and the events it caused, oldest first.  The
assignment `vr.debug = debug`, which the source makes before it looks at the error of
`newVersionResolver`, has no visible effect and is left out. -/
def testDef (w : TestWorld) (c : Command) (args : List String) : Outcome × List TestEvent :=
  match w.newVersionResolver (!c.flagTestNoPath) with
  | some err =>
    (.returned (some (.resolverCreate err)), [.newVersionResolver (!c.flagTestNoPath)])
  | none =>
    match preResolve w args with
    | (some err, launched) =>
      (.returned (some (.preResolve args err)),
        .newVersionResolver (!c.flagTestNoPath) :: launched)
    | (none, launched) =>
      let r := afterResolve w c args
      (r.1, .newVersionResolver (!c.flagTestNoPath) :: launched ++ r.2)

/-! ## The binary shape in words -/

/-- The test `lo ≤ c ≤ hi` on code points. -/
def inRange (lo hi c : Char) : Bool :=
  decide (lo.toNat ≤ c.toNat) && decide (c.toNat ≤ hi.toNat)

/-- A letter (`a`-`z`, `A`-`Z`), a digit (`0`-`9`) or an underscore. -/
def isWordChar (c : Char) : Bool :=
  inRange 'a' 'z' c || inRange 'A' 'Z' c || inRange '0' '9' c || c == '_'

/-- A non-empty run of letters, digits and underscores. -/
def isName (l : List Char) : Bool :=
  !l.isEmpty && l.all isWordChar

/-- The text `.<ext>`, with `<ext>` a non-empty run of letters, digits and underscores. -/
def isDotName (l : List Char) : Bool :=
  l.head? == some '.' && isName l.tail

/-- All the ways of cutting a text in two. -/
def splitsOf (l : List Char) : List (List Char × List Char) :=
  (List.range (l.length + 1)).map fun i => (l.take i, l.drop i)

/-- The text `<name>`, optionally followed by one `.<ext>`, optionally followed by `.exe`. -/
def nameTail (t : List Char) : Bool :=
  (splitsOf t).any fun p => isName p.1 && (splitsOf p.2).any fun q =>
    (q.1 == [] || isDotName q.1) && (q.2 == [] || q.2 == ".exe".toList)

/-- The shape of a test binary as the specification words it: the text ends with `.test`
or `.test.exe`, or it ends with a path segment `exe` followed by `/<name>`, an optional
`.<ext>` and an optional `.exe`; a path segment starts at the beginning of the text or
right after a `/`.  Letters and digits are taken as the ASCII ones, the narrowest reading. -/
def specShape (s : String) : Bool :=
  hasSuffix s ".test" || hasSuffix s ".test.exe" ||
  (splitsOf s.toList).any fun p =>
    (p.1 == [] || p.1.getLast? == some '/') && "exe/".toList.isPrefixOf p.2 &&
      nameTail (p.2.drop 4)

/-- The strings `rxBinary` matches, without the regular expression: as `specShape`, with
the `/` that starts the segment `exe` written out, so the text ends with `/exe/<name>`, an
optional `.<ext>` and an optional `.exe`. -/
def binaryShape (s : String) : Bool :=
  hasSuffix s ".test" || hasSuffix s ".test.exe" ||
  (splitsOf s.toList).any fun p => "/exe/".toList.isPrefixOf p.2 && nameTail (p.2.drop 5)

/-! ## Sample worlds -/

/-- A Linux host in ad hoc mode: `GOMOD` is empty and the working directory is
`/tmp/proj`. -/
def adHocWorld : World where
  goos := "linux"
  uid := 1000
  gid := 1000
  fCompose := false
  mkdirTemp := .ok "/tmp/dockexec-home1"
  removeAll := fun _ => none
  userHomeDir := .ok "/home/gopher"
  goEnv := .ok ⟨"/home/gopher/go/pkg/mod", "/home/gopher/.cache/go-build", ""⟩
  getwd := .ok "/tmp/proj"
  goListM := .runError "exit status 1" "go: not in a module"
  run := fun _ _ => none

/-- A Linux host in module-aware mode: the main module is rooted at `/repo` and the
working directory is `/repo/cmd/x`. -/
def moduleWorld : World where
  goos := "linux"
  uid := 1000
  gid := 1000
  fCompose := false
  mkdirTemp := .ok "/tmp/dockexec-home1"
  removeAll := fun _ => none
  userHomeDir := .ok "/home/gopher"
  goEnv := .ok ⟨"/home/gopher/go/pkg/mod", "/home/gopher/.cache/go-build", "/repo/go.mod"⟩
  getwd := .ok "/repo/cmd/x"
  goListM := .ok ⟨"example.com/m", "/repo"⟩
  run := fun _ _ => none

/-! ## Mounts of `/etc/shadow` in a docker argument vector -/

/-- The fields of a text separated by `sep`. -/
def splitChar (sep : Char) : List Char → List (List Char)
  | [] => [[]]
  | c :: cs =>
    if c = sep then [] :: splitChar sep cs
    else
      match splitChar sep cs with
      | [] => [[c]]
      | f :: fs => (c :: f) :: fs

/-- A host path that gives the container `/etc/shadow`: after cleaning, the file itself or
a directory above it (`/etc` or `/`). -/
def coversShadow (p : List Char) : Bool :=
  decide (pathClean p ∈ ["/etc/shadow".toList, "/etc".toList, "/".toList])

/-- The host side `SRC` of a volume value `SRC:DST[:OPTS]`. -/
def volumeSource (v : List Char) : List Char :=
  v.takeWhile fun c => c != ':'

/-- A value of `-v` or `--volume` whose host side covers `/etc/shadow`. -/
def volumeCovers (v : List Char) : Bool :=
  coversShadow (volumeSource v)

/-- A value of `--mount`, a list of `key=value` fields separated by commas, one of whose
values (`source=`, `src=`, or any other key) covers `/etc/shadow`. -/
def mountCovers (v : List Char) : Bool :=
  (splitChar ',' v).any fun f => coversShadow ((f.dropWhile fun c => c != '=').drop 1)

/-- A group of short flags that contains `v`, such as `-v`, `-itv` or `-v/etc:/x`. -/
def isShortV (e : String) : Bool :=
  hasPrefix e "-" && !hasPrefix e "--" && e.toList.contains 'v'

/-- The value written right after the `v` of a short group, without a leading `=`. -/
def afterV (e : String) : List Char :=
  if ((e.toList.dropWhile fun c => c != 'v').drop 1).head? = some '=' then
    (e.toList.dropWhile fun c => c != 'v').drop 2
  else (e.toList.dropWhile fun c => c != 'v').drop 1

/-- The element `e` of a docker argument vector, followed by `next`, mounts `/etc/shadow`
or a directory above it: `--volume=SRC:...`, `--mount=...source=SRC...`, `--volume`,
`--mount` or a short group with `v` followed by the value, or `-vSRC:...`. -/
def optionMounts (e next : String) : Bool :=
  if hasPrefix e "--volume=" then volumeCovers (e.toList.drop 9)
  else if hasPrefix e "--mount=" then mountCovers (e.toList.drop 8)
  else if e = "--volume" then volumeCovers next.toList
  else if e = "--mount" then mountCovers next.toList
  else if isShortV e then volumeCovers (afterV e) || volumeCovers next.toList
  else false

/-- The vector `argv` mounts `/etc/shadow`, or a directory above it, by its element `i`. -/
def mountsShadowAt (argv : List String) (i : Nat) : Bool :=
  match argv[i]? with
  | none => false
  | some e => optionMounts e ((argv[i + 1]?).getD "")

/-- The element `a` is the mount `--volume=<p>:...` of a host path `p` handed to
`dockexecDef` (the binary at `/init`, the temporary home at the home of the user,
`GOMODCACHE` at `/gomodcache`, `GOCACHE` at `/gocache`, the working directory or the module
directory at `/start`), and `p` is itself `/etc/shadow` or a directory above it. -/
def HostPathMount (w : World) (binary a : String) : Prop :=
  ∃ p tail, a = "--volume=" ++ p ++ tail ∧ coversShadow (volumeSource p.toList) = true
    ∧ ((p = binary ∧ tail = ":/init")
      ∨ (w.mkdirTemp = .ok p ∧ ∃ H, w.userHomeDir = .ok H ∧ tail = ":" ++ H)
      ∨ (∃ env, w.goEnv = .ok env
          ∧ ((p = env.GOMODCACHE ∧ tail = ":/gomodcache") ∨ (p = env.GOCACHE ∧ tail = ":/gocache")))
      ∨ ((w.getwd = .ok p ∨ ∃ mod, w.goListM = .ok mod ∧ mod.Dir = p) ∧ tail = ":/start"))

/-! ## Clean paths -/

/-- The elements `segs` separated by `/`. -/
def joinSegs : List (List Char) → List Char
  | [] => []
  | [s] => s
  | s :: t :: rest => s ++ '/' :: joinSegs (t :: rest)

/-- An element of a clean path: non-empty, without `/`, and neither `.` nor `..`. -/
def ValidSeg (s : List Char) : Prop :=
  s ≠ [] ∧ '/' ∉ s ∧ s ≠ ['.'] ∧ s ≠ ['.', '.']

instance (s : List Char) : Decidable (ValidSeg s) := by
  unfold ValidSeg
  infer_instance

/-- The clean absolute path with the elements `segs`: `/` for no element, else
`/s1/s2/.../sn`. -/
def absPath (segs : List String) : String :=
  String.mk ('/' :: joinSegs (segs.map String.toList))

/-- The clean relative path with the elements `segs`: `s1/s2/.../sn`. -/
def relPath (segs : List String) : String :=
  String.mk (joinSegs (segs.map String.toList))

/-- The text that follows an element in a clean path: nothing, or `/` and more. -/
def SegTail (t : List Char) : Prop := t = [] ∨ ∃ u, t = '/' :: u

/-! ## Resolution tasks -/

/-- The references for which a resolution task was started, in the order of the calls
`eg.Go`. -/
def launched (evs : List TestEvent) : List String :=
  evs.filterMap fun ev =>
    match ev with
    | .goResolve v => some v
    | _ => none

/-- A run of `unity test` with default flags in `/work`. -/
def sampleCommand : Command where
  flagDebug := false
  flagTestUpdate := false
  flagTestCorpus := false
  flagTestDir := "/work"
  flagTestVerbose := false
  flagTestNoPath := false
  flagTestOverlay := ""
  flagTestUnsafe := false
  flagTestStaged := false
  flagTestIgnoreDirty := false
  flagTestSelf := ""

/-- A host on which every collaborator succeeds and exactly the version `v0.4.3`
resolves; of two tasks the second returns first. -/
def sampleTestWorld : TestWorld where
  newVersionResolver := fun _ => none
  resolve := fun v => if v = "v0.4.3" then .ok "v0.4.3" else .error ("unknown version " ++ v)
  finishOrder := [1, 0]
  gitDir := fun dir => .ok (dir ++ "\n")
  loadInstance := none
  manifestErr := none
  stat := fun _ => .ok true
  abs := fun dir => .ok dir
  newBuildHelper := none
  targetDocker := fun _ => none
  tempDir := .ok "/tmp/unity-self-dir1"
  pathToSelf := fun _ td => .ok (td ++ "/unity")
  testCorpus := fun _ _ => .pass
  testProject := fun _ _ => .pass

/-- The events of the part of `testDef` that follows pre-resolution. -/
def LaterEvent (ev : TestEvent) : Prop :=
  (∀ v, ev ≠ .goResolve v) ∧ ∀ b, ev ≠ .newVersionResolver b

/-! # Lemmas and theorems -/

/-! ## The regular expression -/

theorem toNat_ofNat_of_lt (k : Nat) (h : k < 0xd800) : (Char.ofNat k).toNat = k := by
  have hv : k.isValidChar := Or.inl h
  simp only [Char.ofNat, hv, dite_true, Char.toNat, Char.ofNatAux]
  simp [UInt32.toNat]

theorem rmatch_sum_chars (f : Nat → Char) (l : List Nat) (x : List Char) :
    ((l.map fun i => (char (f i) : RegularExpression Char)).foldr (fun a r => a + r) 0).rmatch x
      = true ↔ ∃ i ∈ l, x = [f i] := by
  induction l with
  | nil => simp [zero_rmatch]
  | cons a l ih =>
    simp only [List.map_cons, List.foldr_cons, add_rmatch_iff, ih, char_rmatch_iff,
      List.mem_cons, exists_eq_or_imp]

theorem rmatch_rxRange (lo hi : Char) (hhi : hi.toNat < 0xd800) (x : List Char) :
    (rxRange lo hi).rmatch x = true ↔ ∃ c, x = [c] ∧ inRange lo hi c = true := by
  unfold rxRange
  rw [rmatch_sum_chars (fun i => Char.ofNat (lo.toNat + i))]
  simp only [inRange, Bool.and_eq_true, decide_eq_true_eq, List.mem_range]
  constructor
  · rintro ⟨i, hi, rfl⟩
    refine ⟨_, rfl, ?_⟩
    rw [toNat_ofNat_of_lt _ (by omega)]
    omega
  · rintro ⟨c, rfl, h1, h2⟩
    refine ⟨c.toNat - lo.toNat, by omega, ?_⟩
    rw [show lo.toNat + (c.toNat - lo.toNat) = c.toNat by omega, Char.ofNat_toNat]

theorem rmatch_rxWord (x : List Char) :
    rxWord.rmatch x = true ↔ ∃ c, x = [c] ∧ isWordChar c = true := by
  unfold rxWord
  simp only [add_rmatch_iff, rmatch_rxRange _ _ (by decide : 'z'.toNat < 0xd800),
    rmatch_rxRange _ _ (by decide : 'Z'.toNat < 0xd800),
    rmatch_rxRange _ _ (by decide : '9'.toNat < 0xd800), char_rmatch_iff, isWordChar,
    Bool.or_eq_true, beq_iff_eq]
  constructor
  · rintro (((⟨c, rfl, h⟩ | ⟨c, rfl, h⟩) | ⟨c, rfl, h⟩) | rfl)
    · exact ⟨c, rfl, Or.inl (Or.inl (Or.inl h))⟩
    · exact ⟨c, rfl, Or.inl (Or.inl (Or.inr h))⟩
    · exact ⟨c, rfl, Or.inl (Or.inr h)⟩
    · exact ⟨'_', rfl, Or.inr rfl⟩
  · rintro ⟨c, rfl, ((h | h) | h) | h⟩
    · exact Or.inl (Or.inl (Or.inl ⟨c, rfl, h⟩))
    · exact Or.inl (Or.inl (Or.inr ⟨c, rfl, h⟩))
    · exact Or.inl (Or.inr ⟨c, rfl, h⟩)
    · exact Or.inr (by rw [h])

theorem rmatch_star_rxWord (x : List Char) :
    (star rxWord).rmatch x = true ↔ ∀ c ∈ x, isWordChar c = true := by
  rw [star_rmatch_iff]
  constructor
  · rintro ⟨S, rfl, hS⟩ c hc
    rw [List.mem_flatten] at hc
    obtain ⟨t, ht, hct⟩ := hc
    obtain ⟨d, rfl, hd⟩ := (rmatch_rxWord t).1 (hS t ht).2
    rw [List.mem_singleton] at hct
    rw [hct]; exact hd
  · intro h
    refine ⟨x.map fun c => [c], ?_, ?_⟩
    · induction x with
      | nil => rfl
      | cons a x ih =>
        rw [List.map_cons, List.flatten_cons, ← ih fun c hc => h c (List.mem_cons_of_mem _ hc)]
        rfl
    · intro t ht
      rw [List.mem_map] at ht
      obtain ⟨c, hc, rfl⟩ := ht
      exact ⟨by simp, (rmatch_rxWord _).2 ⟨c, rfl, h c hc⟩⟩

theorem rmatch_plus_rxWord (x : List Char) :
    (rxPlus rxWord).rmatch x = true ↔ isName x = true := by
  unfold rxPlus isName
  rw [mul_rmatch_iff]
  simp only [rmatch_rxWord, rmatch_star_rxWord, Bool.and_eq_true, Bool.not_eq_true',
    List.isEmpty_eq_false, List.all_eq_true]
  constructor
  · rintro ⟨t, u, rfl, ⟨c, rfl, hc⟩, hu⟩
    refine ⟨by simp, ?_⟩
    intro d hd
    rcases List.mem_cons.1 hd with rfl | hd
    · exact hc
    · exact hu d hd
  · rintro ⟨hne, h⟩
    cases x with
    | nil => exact absurd rfl hne
    | cons c x =>
      exact ⟨[c], x, rfl, ⟨c, rfl, h c (List.mem_cons_self _ _)⟩,
        fun d hd => h d (List.mem_cons_of_mem _ hd)⟩

theorem rmatch_lit_chars (l x : List Char) :
    (l.foldr (fun c r => (char c : RegularExpression Char) * r) 1).rmatch x = true ↔ x = l := by
  induction l generalizing x with
  | nil => simp [one_rmatch_iff]
  | cons a l ih =>
    rw [List.foldr_cons, mul_rmatch_iff]
    constructor
    · rintro ⟨t, u, rfl, ht, hu⟩
      rw [char_rmatch_iff] at ht
      rw [ht, (ih u).1 hu]; rfl
    · rintro rfl
      exact ⟨[a], l, rfl, (char_rmatch_iff _ _).2 rfl, (ih l).2 rfl⟩

theorem rmatch_rxLit (s : String) (x : List Char) :
    (rxLit s).rmatch x = true ↔ x = s.toList :=
  rmatch_lit_chars _ _

theorem rmatch_rxOpt (r : RegularExpression Char) (x : List Char) :
    (rxOpt r).rmatch x = true ↔ r.rmatch x = true ∨ x = [] := by
  unfold rxOpt
  rw [add_rmatch_iff, one_rmatch_iff]

theorem rmatch_dotName (x : List Char) :
    ((char '.' : RegularExpression Char) * rxPlus rxWord).rmatch x = true ↔ isDotName x = true := by
  rw [mul_rmatch_iff]
  simp only [char_rmatch_iff, rmatch_plus_rxWord, isDotName, Bool.and_eq_true, beq_iff_eq]
  constructor
  · rintro ⟨t, u, rfl, rfl, hu⟩
    exact ⟨rfl, hu⟩
  · rintro ⟨h1, h2⟩
    cases x with
    | nil => simp at h1
    | cons c x =>
      simp only [List.head?_cons, Option.some.injEq] at h1
      subst h1
      exact ⟨['.'], x, rfl, rfl, h2⟩

theorem exists_dotName (x : List Char) :
    (∃ t u, x = t ++ u ∧ (char '.' : RegularExpression Char).rmatch t = true ∧ isName u = true)
      ↔ isDotName x = true := by
  rw [← rmatch_dotName, mul_rmatch_iff]
  simp only [rmatch_plus_rxWord]

theorem mem_splitsOf (l a b : List Char) : (a, b) ∈ splitsOf l ↔ a ++ b = l := by
  unfold splitsOf
  simp only [List.mem_map, List.mem_range, Prod.mk.injEq]
  constructor
  · rintro ⟨i, _, rfl, rfl⟩
    exact List.take_append_drop i l
  · rintro rfl
    exact ⟨a.length, by simp; omega, by simp, by simp⟩

theorem nameTail_iff (t : List Char) :
    nameTail t = true ↔ ∃ name ext exe, t = name ++ (ext ++ exe) ∧ isName name = true ∧
      (ext = [] ∨ isDotName ext = true) ∧ (exe = [] ∨ exe = ".exe".toList) := by
  unfold nameTail
  simp only [List.any_eq_true, Bool.and_eq_true, Bool.or_eq_true, beq_iff_eq, Prod.exists,
    mem_splitsOf]
  constructor
  · rintro ⟨name, r, rfl, hn, ext, exe, rfl, he, hx⟩
    exact ⟨name, ext, exe, rfl, hn, he, hx⟩
  · rintro ⟨name, ext, exe, rfl, hn, he, hx⟩
    exact ⟨name, ext ++ exe, rfl, hn, ext, exe, rfl, he, hx⟩

theorem rmatch_rxBinary (t : List Char) :
    rxBinary.rmatch t = true ↔
      t = ".test".toList ∨ t = ".test.exe".toList ∨
        ∃ tail, t = "/exe/".toList ++ tail ∧ nameTail tail = true := by
  unfold rxBinary
  simp only [add_rmatch_iff, mul_rmatch_iff, rmatch_rxLit, rmatch_rxOpt, rmatch_plus_rxWord,
    exists_dotName, nameTail_iff]
  constructor
  · rintro (⟨a, b, rfl, rfl, (rfl | rfl)⟩ | ⟨x, exe, rfl, ⟨y, ext, rfl, ⟨p, name, rfl, rfl, hn⟩, he⟩, hx⟩)
    · exact Or.inr (Or.inl rfl)
    · exact Or.inl rfl
    · refine Or.inr (Or.inr ⟨name ++ (ext ++ exe), by simp, name, ext, exe, rfl, hn, ?_, ?_⟩)
      · exact he.symm
      · exact hx.symm
  · rintro (rfl | rfl | ⟨tail, rfl, name, ext, exe, rfl, hn, he, hx⟩)
    · exact Or.inl ⟨_, [], rfl, rfl, Or.inr rfl⟩
    · exact Or.inl ⟨".test".toList, ".exe".toList, rfl, rfl, Or.inl rfl⟩
    · exact Or.inr ⟨"/exe/".toList ++ name ++ ext, exe, by simp,
        ⟨"/exe/".toList ++ name, ext, rfl, ⟨_, name, rfl, rfl, hn⟩, he.symm⟩, hx.symm⟩

theorem matchString_rxBinary (s : String) : matchString rxBinary s = binaryShape s := by
  rw [Bool.eq_iff_iff]
  unfold matchString binaryShape hasSuffix
  simp only [List.any_eq_true, List.mem_tails, rmatch_rxBinary, Bool.or_eq_true,
    List.isSuffixOf_iff_suffix, Bool.and_eq_true, List.isPrefixOf_iff_prefix, Prod.exists,
    mem_splitsOf]
  constructor
  · rintro ⟨t, ht, (rfl | rfl | ⟨tail, rfl, hn⟩)⟩
    · exact Or.inl (Or.inl ht)
    · exact Or.inl (Or.inr ht)
    · obtain ⟨pre, hpre⟩ := ht
      exact Or.inr ⟨pre, _, hpre, ⟨tail, rfl⟩, by simpa using hn⟩
  · rintro ((h | h) | ⟨pre, r, hs, ⟨tail, rfl⟩, hn⟩)
    · exact ⟨_, h, Or.inl rfl⟩
    · exact ⟨_, h, Or.inr (Or.inl rfl)⟩
    · exact ⟨_, ⟨pre, hs⟩, Or.inr (Or.inr ⟨tail, rfl, by simpa using hn⟩)⟩


theorem specShape_of_binaryShape (s : String) (h : binaryShape s = true) :
    specShape s = true := by
  unfold binaryShape at h
  unfold specShape
  simp only [Bool.or_eq_true, List.any_eq_true, Bool.and_eq_true, Prod.exists, mem_splitsOf,
    List.isPrefixOf_iff_prefix, beq_iff_eq] at h ⊢
  rcases h with h | ⟨pre, r, hs, ⟨tail, rfl⟩, hn⟩
  · exact Or.inl h
  · refine Or.inr ⟨pre ++ ['/'], "exe/".toList ++ tail, ?_, ⟨Or.inr (by simp), ⟨tail, rfl⟩⟩, ?_⟩
    · rw [← hs]; simp
    · simpa using hn

theorem specShape_of_matchString (s : String) (h : matchString rxBinary s = true) :
    specShape s = true :=
  specShape_of_binaryShape s (by rw [← matchString_rxBinary]; exact h)

/-! ## The split -/

theorem isBinaryArg_iff (a : String) :
    isBinaryArg a = true ↔ hasPrefix a "-" = false ∧ matchString rxBinary a = true := by
  unfold isBinaryArg
  simp

theorem ne_empty_of_isBinaryArg (a : String) (h : isBinaryArg a = true) : a ≠ "" := by
  rintro rfl
  revert h
  decide

theorem splitFrom_of_first (args : List String) :
    ∀ (rest : List String) (i k : Nat) (b : String), args.drop i = rest → rest[k]? = some b →
      isBinaryArg b = true → (∀ j a, j < k → rest[j]? = some a → isBinaryArg a = false) →
      splitFrom args i rest = ⟨args.take (i + k), b, args.drop (i + k + 1)⟩ := by
  intro rest
  induction rest with
  | nil => intro i k b _ hk; simp at hk
  | cons a rest ih =>
    intro i k b hdrop hk hb hmin
    cases k with
    | zero =>
      simp only [List.getElem?_cons_zero, Option.some.injEq] at hk
      subst hk
      simp [splitFrom, hb]
    | succ k =>
      have ha : isBinaryArg a = false := hmin 0 a (Nat.succ_pos k) (by simp)
      have hrest : args.drop (i + 1) = rest := by
        rw [← List.tail_drop, hdrop]; rfl
      rw [splitFrom, if_neg (by simp [ha]),
        ih (i + 1) k b hrest (by simpa using hk) hb
          (fun j c hj hc => hmin (j + 1) c (Nat.succ_lt_succ hj) (by simpa using hc))]
      have e1 : i + 1 + k = i + (k + 1) := by omega
      rw [e1]

theorem splitFrom_binary_eq_empty (args : List String) :
    ∀ (rest : List String) (i : Nat),
      (splitFrom args i rest).binary = "" ↔ ∀ a ∈ rest, isBinaryArg a = false := by
  intro rest
  induction rest with
  | nil => intro i; simp [splitFrom]
  | cons a rest ih =>
    intro i
    by_cases ha : isBinaryArg a = true
    · have hne := ne_empty_of_isBinaryArg a ha
      simp [splitFrom, ha, hne]
    · have ha' : isBinaryArg a = false := by simpa using ha
      simp [splitFrom, ha', ih (i + 1)]

theorem splitFrom_binary_isBinaryArg (args : List String) :
    ∀ (rest : List String) (i : Nat), (splitFrom args i rest).binary ≠ "" →
      isBinaryArg (splitFrom args i rest).binary = true := by
  intro rest
  induction rest with
  | nil => intro i h; simp [splitFrom] at h
  | cons a rest ih =>
    intro i h
    by_cases ha : isBinaryArg a = true
    · simp [splitFrom, ha]
    · have ha' : isBinaryArg a = false := by simpa using ha
      simp only [splitFrom, ha', Bool.false_eq_true, if_false] at h ⊢
      exact ih (i + 1) h

/-! ## `dockexecDef` -/

theorem dockexecDef_of_no_binary (w : World) (image arg : String) (more : List String)
    (h : (splitArgs (arg :: more)).binary = "") :
    dockexecDef w (image :: arg :: more) = (some .noBinary, []) := by
  simp [dockexecDef, h]

theorem dockexecDef_run (w : World) (image arg : String) (more C : List String)
    (tempHome realHome : String) (evs : List Event)
    (hbin : (splitArgs (arg :: more)).binary ≠ "")
    (htemp : w.mkdirTemp = .ok tempHome) (hhome : w.userHomeDir = .ok realHome)
    (hctx : buildDockerFlags w = (.ok C, evs)) :
    dockexecDef w (image :: arg :: more) =
      ((w.run (if w.fCompose then "docker-compose" else "docker")
          (allDockerArgs w image (splitArgs (arg :: more)) tempHome realHome C)).map Err.os,
        .mkdirTemp :: evs ++ [.exec (if w.fCompose then "docker-compose" else "docker")
          (allDockerArgs w image (splitArgs (arg :: more)) tempHome realHome C)]
          ++ cleanup w tempHome) := by
  simp [dockexecDef, hbin, htemp, hhome, hctx]

theorem dockexecDef_events_ne_nil (w : World) (image arg : String) (more : List String)
    (hbin : (splitArgs (arg :: more)).binary ≠ "") :
    (dockexecDef w (image :: arg :: more)).2 ≠ [] := by
  simp only [dockexecDef, hbin, if_false]
  cases w.mkdirTemp with
  | error e => simp
  | ok t =>
    cases w.userHomeDir with
    | error e => simp
    | ok r =>
      rcases hb : buildDockerFlags w with ⟨res, evs⟩
      cases res with
      | error e => simp
      | ok c => simp

theorem buildDockerFlags_ne_noBinary (w : World) :
    (buildDockerFlags w).1 ≠ .error Err.noBinary := by
  unfold buildDockerFlags
  split
  · simp
  · simp
  · split
    · simp
    · split
      · split
        · simp
        · simp
        · split <;> simp
      · simp

theorem buildDockerFlags_events (w : World) :
    ∀ ev ∈ (buildDockerFlags w).2, ∃ args, ev = Event.exec "go" args := by
  unfold buildDockerFlags
  split
  · simp
  · simp
  · split
    · simp
    · split
      · split
        · simp
        · simp
        · split <;> simp
      · simp

theorem cleanup_events (w : World) (tempHome : String) :
    ∀ ev ∈ cleanup w tempHome, ∀ prog args, ev ≠ Event.exec prog args := by
  unfold cleanup
  split <;> simp

theorem hasPrefix_append_left (p x q : String)
    (h1 : q.toList.isPrefixOf p.toList = false) (h2 : p.toList.isPrefixOf q.toList = false) :
    hasPrefix (p ++ x) q = false := by
  unfold hasPrefix
  rw [Bool.eq_false_iff] at h1 h2 ⊢
  intro h
  rw [ne_eq, List.isPrefixOf_iff_prefix] at h1 h2
  rw [List.isPrefixOf_iff_prefix, String.toList, String.toList, String.data_append] at h
  rcases List.prefix_or_prefix_of_prefix h (List.prefix_append p.data x.data) with h3 | h3
  · exact h1 h3
  · exact h2 h3

theorem hasPrefix_append_right (p x q : String) (h : q.toList.isPrefixOf p.toList = true) :
    hasPrefix (p ++ x) q = true := by
  unfold hasPrefix
  rw [List.isPrefixOf_iff_prefix] at h ⊢
  rw [String.toList, String.toList, String.data_append]
  exact h.trans (List.prefix_append p.data x.data)

theorem ne_of_hasPrefix (e s q : String) (h : hasPrefix e q = false)
    (hq : hasPrefix s q = true) : e ≠ s := by
  rintro rfl
  rw [h] at hq
  cases hq

theorem optionMounts_of_not_flag (e next : String)
    (h1 : hasPrefix e "--volume=" = false) (h2 : hasPrefix e "--mount=" = false)
    (h3 : e ≠ "--volume") (h4 : e ≠ "--mount") (h5 : isShortV e = false) :
    optionMounts e next = false := by
  simp [optionMounts, h1, h2, h3, h4, h5]

/-- An own option `--<name>=...` that is neither `--volume=` nor `--mount=`. -/
theorem optionMounts_long (p x next : String)
    (hd : "--".toList.isPrefixOf p.toList = true)
    (hv1 : "--v".toList.isPrefixOf p.toList = false) (hv2 : p.toList.isPrefixOf "--v".toList = false)
    (hm1 : "--m".toList.isPrefixOf p.toList = false) (hm2 : p.toList.isPrefixOf "--m".toList = false) :
    optionMounts (p ++ x) next = false := by
  have hv := hasPrefix_append_left p x "--v" hv1 hv2
  have hm := hasPrefix_append_left p x "--m" hm1 hm2
  have hdd := hasPrefix_append_right p x "--" hd
  have h1 : hasPrefix (p ++ x) "--volume=" = false := by
    rw [Bool.eq_false_iff]
    intro h
    have : hasPrefix (p ++ x) "--v" = true := by
      unfold hasPrefix at h ⊢
      rw [List.isPrefixOf_iff_prefix] at h ⊢
      exact (by decide : "--v".toList <+: "--volume=".toList).trans h
    rw [hv] at this
    cases this
  have h2 : hasPrefix (p ++ x) "--mount=" = false := by
    rw [Bool.eq_false_iff]
    intro h
    have : hasPrefix (p ++ x) "--m" = true := by
      unfold hasPrefix at h ⊢
      rw [List.isPrefixOf_iff_prefix] at h ⊢
      exact (by decide : "--m".toList <+: "--mount=".toList).trans h
    rw [hm] at this
    cases this
  exact optionMounts_of_not_flag _ _ h1 h2 (ne_of_hasPrefix _ _ _ hv (by decide))
    (ne_of_hasPrefix _ _ _ hm (by decide)) (by simp [isShortV, hdd])

/-- An own argument `NAME=...` that does not start with `-`. -/
theorem optionMounts_plain (p x next : String)
    (h1 : "-".toList.isPrefixOf p.toList = false) (h2 : p.toList.isPrefixOf "-".toList = false) :
    optionMounts (p ++ x) next = false := by
  have hd := hasPrefix_append_left p x "-" h1 h2
  have hpre : ∀ q : String, hasPrefix q "-" = true → hasPrefix (p ++ x) q = false := by
    intro q hq
    rw [Bool.eq_false_iff]
    intro h
    have : hasPrefix (p ++ x) "-" = true := by
      unfold hasPrefix at h hq ⊢
      rw [List.isPrefixOf_iff_prefix] at h hq ⊢
      exact hq.trans h
    rw [hd] at this
    cases this
  exact optionMounts_of_not_flag _ _ (hpre _ (by decide)) (hpre _ (by decide))
    (ne_of_hasPrefix _ _ _ hd (by decide)) (ne_of_hasPrefix _ _ _ hd (by decide))
    (by simp [isShortV, hd])

theorem takeWhile_colon (a t : List Char) :
    (a ++ ':' :: t).takeWhile (fun c => c != ':') = a.takeWhile (fun c => c != ':') := by
  induction a with
  | nil => simp
  | cons c a ih =>
    by_cases hc : c = ':'
    · subst hc; simp
    · simp [List.takeWhile_cons, hc, ih]

/-- An own mount `--volume=<p><tail>` with `tail` starting with `:` mounts the host path `p`. -/
theorem optionMounts_volume (p tail next : String) (t : List Char)
    (ht : tail.toList = ':' :: t) :
    optionMounts ("--volume=" ++ p ++ tail) next = coversShadow (volumeSource p.toList) := by
  have hp : hasPrefix ("--volume=" ++ p ++ tail) "--volume=" = true := by
    rw [String.append_assoc]
    exact hasPrefix_append_right _ _ _ (by decide)
  have hl : ("--volume=" ++ p ++ tail).toList.drop 9 = p.toList ++ ':' :: t := by
    rw [String.toList, String.data_append, String.data_append, ← String.toList, ← String.toList,
      ← String.toList, ht, List.append_assoc]
    rfl
  simp only [optionMounts, hp, if_true, volumeCovers, hl, volumeSource, takeWhile_colon]

theorem optionMounts_fixedArgs (w : World) (binary tempHome realHome e next : String)
    (he : e ∈ fixedArgs w binary tempHome realHome) (hm : optionMounts e next = true) :
    (e = "--volume=" ++ binary ++ ":/init" ∧ coversShadow (volumeSource binary.toList) = true)
      ∨ (e = "--volume=" ++ tempHome ++ ":" ++ realHome
        ∧ coversShadow (volumeSource tempHome.toList) = true) := by
  have hlit : ∀ s : String, hasPrefix s "--volume=" = false → hasPrefix s "--mount=" = false →
      s ≠ "--volume" → s ≠ "--mount" → isShortV s = false → e = s → False := by
    intro s h1 h2 h3 h4 h5 hes
    rw [hes, optionMounts_of_not_flag s next h1 h2 h3 h4 h5] at hm
    cases hm
  have hvol : ∀ s : String, hasPrefix s "--volume=" = true →
      volumeCovers (s.toList.drop 9) = false → e = s → False := by
    intro s h1 h2 hes
    rw [hes] at hm
    simp only [optionMounts, h1, if_true] at hm
    rw [h2] at hm
    cases hm
  unfold fixedArgs at he
  rw [List.mem_append] at he
  rcases he with he | he
  · simp only [List.mem_cons, List.mem_singleton, List.not_mem_nil, or_false] at he
    rcases he with h | h | h | h | h | h | h | h
    · exact (hlit _ (by decide) (by decide) (by decide) (by decide) (by decide) h).elim
    · exact (hlit _ (by decide) (by decide) (by decide) (by decide) (by decide) h).elim
    · refine Or.inl ⟨h, ?_⟩
      rw [h, optionMounts_volume binary ":/init" next "/init".toList rfl] at hm
      exact hm
    · exact (hlit _ (by decide) (by decide) (by decide) (by decide) (by decide) h).elim
    · rw [h, String.append_assoc, String.append_assoc,
        optionMounts_long _ _ _ (by decide) (by decide) (by decide) (by decide) (by decide)] at hm
      cases hm
    · exact (hvol _ (by decide) (by decide) h).elim
    · exact (hvol _ (by decide) (by decide) h).elim
    · refine Or.inr ⟨h, ?_⟩
      rw [h, String.append_assoc,
        optionMounts_volume tempHome (":" ++ realHome) next realHome.toList
          (by rw [String.toList, String.data_append]; rfl)] at hm
      exact hm
  · split at he
    · simp only [List.mem_cons, List.mem_singleton, List.not_mem_nil, or_false] at he
      rcases he with h | h
      · exact (hlit _ (by decide) (by decide) (by decide) (by decide) (by decide) h).elim
      · rw [h, optionMounts_plain _ _ _ (by decide) (by decide)] at hm
        cases hm
    · simp only [List.mem_cons, List.mem_singleton, List.not_mem_nil, or_false] at he
      rcases he with h | h
      · exact (hlit _ (by decide) (by decide) (by decide) (by decide) (by decide) h).elim
      · rw [h, optionMounts_plain _ _ _ (by decide) (by decide)] at hm
        cases hm

/-- The spellings `mountsShadowAt` knows, and elements that are not mounts of the host
file. -/
theorem mountsShadowAt_examples :
    mountsShadowAt ["run", "--volume=/etc/shadow:/etc/shadow:ro", "img"] 1 = true
      ∧ mountsShadowAt ["run", "-v", "/etc/shadow:/x", "img"] 1 = true
      ∧ mountsShadowAt ["run", "--volume", "/etc/shadow:/x", "img"] 1 = true
      ∧ mountsShadowAt ["run", "-v/etc/shadow:/x", "img"] 1 = true
      ∧ mountsShadowAt ["run", "-itv", "/etc/shadow:/x", "img"] 1 = true
      ∧ mountsShadowAt ["run", "--mount", "type=bind,source=/etc/shadow,target=/x", "img"] 1 = true
      ∧ mountsShadowAt ["run", "--mount=type=bind,src=/etc/shadow,dst=/x", "img"] 1 = true
      ∧ mountsShadowAt ["run", "--volume=/etc:/host-etc", "img"] 1 = true
      ∧ mountsShadowAt ["run", "--volume=/etc/:/host-etc", "img"] 1 = true
      ∧ mountsShadowAt ["run", "-v", "/:/host", "img"] 1 = true
      ∧ mountsShadowAt ["run", "--volume=/etc/passwd:/etc/passwd:ro", "img"] 1 = false
      ∧ mountsShadowAt ["run", "--volume=/tmp/x:/etc/shadow", "img"] 1 = false
      ∧ mountsShadowAt ["run", "-e", "HOME=/etc/shadow", "img"] 1 = false
      ∧ mountsShadowAt ["run", "-e", "HOME=/etc/shadow", "img"] 2 = false := by
  decide

theorem buildDockerFlags_ok_shape (w : World) (C : List String)
    (h : (buildDockerFlags w).1 = .ok C) :
    ∃ env root dir, w.goEnv = .ok env
      ∧ (w.getwd = .ok root ∨ ∃ mod, w.goListM = .ok mod ∧ mod.Dir = root)
      ∧ C = cacheFlags env ++ ["--volume=" ++ root ++ ":/start", "--workdir=" ++ dir] := by
  unfold buildDockerFlags at h
  split at h
  · cases h
  · cases h
  · rename_i env henv
    split at h
    · cases h
    · rename_i wd hwd
      split at h
      · split at h
        · cases h
        · cases h
        · rename_i mod hmod
          split at h
          · cases h
          · simp only [Except.ok.injEq] at h
            exact ⟨env, mod.Dir, _, henv, Or.inr ⟨mod, hmod, rfl⟩, h.symm⟩
      · simp only [Except.ok.injEq] at h
        exact ⟨env, wd, "/start", henv, Or.inl hwd, h.symm⟩

theorem optionMounts_contextFlags (env : GoEnv) (root dir e next : String)
    (he : e ∈ cacheFlags env ++ ["--volume=" ++ root ++ ":/start", "--workdir=" ++ dir])
    (hm : optionMounts e next = true) :
    (e = "--volume=" ++ env.GOMODCACHE ++ ":/gomodcache"
        ∧ coversShadow (volumeSource env.GOMODCACHE.toList) = true)
      ∨ (e = "--volume=" ++ env.GOCACHE ++ ":/gocache"
        ∧ coversShadow (volumeSource env.GOCACHE.toList) = true)
      ∨ (e = "--volume=" ++ root ++ ":/start"
        ∧ coversShadow (volumeSource root.toList) = true) := by
  have hlit : ∀ s : String, hasPrefix s "--volume=" = false → hasPrefix s "--mount=" = false →
      s ≠ "--volume" → s ≠ "--mount" → isShortV s = false → e = s → False := by
    intro s h1 h2 h3 h4 h5 hes
    rw [hes, optionMounts_of_not_flag s next h1 h2 h3 h4 h5] at hm
    cases hm
  unfold cacheFlags at he
  simp only [List.cons_append, List.nil_append, List.mem_cons, List.mem_singleton,
    List.not_mem_nil, or_false] at he
  rcases he with h | h | h | h | h | h | h | h
  · refine Or.inl ⟨h, ?_⟩
    rw [h, optionMounts_volume _ ":/gomodcache" next "/gomodcache".toList rfl] at hm
    exact hm
  · exact (hlit _ (by decide) (by decide) (by decide) (by decide) (by decide) h).elim
  · exact (hlit _ (by decide) (by decide) (by decide) (by decide) (by decide) h).elim
  · refine Or.inr (Or.inl ⟨h, ?_⟩)
    rw [h, optionMounts_volume _ ":/gocache" next "/gocache".toList rfl] at hm
    exact hm
  · exact (hlit _ (by decide) (by decide) (by decide) (by decide) (by decide) h).elim
  · exact (hlit _ (by decide) (by decide) (by decide) (by decide) (by decide) h).elim
  · refine Or.inr (Or.inr ⟨h, ?_⟩)
    rw [h, optionMounts_volume _ ":/start" next "/start".toList rfl] at hm
    exact hm
  · rw [h, optionMounts_long _ _ _ (by decide) (by decide) (by decide) (by decide) (by decide)] at hm
    cases hm

/-! ## The library routines on known inputs, and their fuel -/

theorem pathClean_examples :
    pathClean "abc/def/ghi/../jkl".toList = "abc/def/jkl".toList
      ∧ pathClean "abc/def/../ghi/../jkl".toList = "abc/jkl".toList
      ∧ pathClean "abc/def/../..".toList = ".".toList
      ∧ pathClean "/abc/def/../..".toList = "/".toList
      ∧ pathClean "abc/def/../../..".toList = "..".toList
      ∧ pathClean "/abc/def/../../..".toList = "/".toList
      ∧ pathClean "abc/def/../../../ghi/jkl/../../../mno".toList = "../../mno".toList
      ∧ pathClean "abc//./../def".toList = "def".toList
      ∧ pathClean "abc/../../././../def".toList = "../../def".toList
      ∧ pathClean "".toList = ".".toList
      ∧ pathClean "/abc/".toList = "/abc".toList := by
  decide

theorem filepathRel_examples :
    filepathRel "a/b".toList "a/b".toList = some ".".toList
      ∧ filepathRel "ab/cd".toList "ab/cde".toList = some "../cde".toList
      ∧ filepathRel "a/b".toList "a/b/c/d".toList = some "c/d".toList
      ∧ filepathRel "a/b/c".toList "a/c/d".toList = some "../../c/d".toList
      ∧ filepathRel "a/b/c/d".toList "a/b".toList = some "../..".toList
      ∧ filepathRel "/a/b/c".toList "/a/c/d".toList = some "../../c/d".toList
      ∧ filepathRel ".".toList "a/b".toList = some "a/b".toList
      ∧ filepathRel ".".toList "..".toList = some "..".toList
      ∧ filepathRel "..".toList ".".toList = none
      ∧ filepathRel "..".toList "a".toList = none
      ∧ filepathRel "a".toList "/a".toList = none
      ∧ filepathRel "/a".toList "a".toList = none := by
  decide

theorem pathJoin_examples :
    pathJoin ["a".toList, "b/c".toList] = "a/b/c".toList
      ∧ pathJoin ["a/b".toList, "../../../xyz".toList] = "../xyz".toList
      ∧ pathJoin ["".toList, "".toList] = "".toList
      ∧ pathJoin ["a".toList, "".toList] = "a".toList
      ∧ pathJoin ["/start".toList, "../x".toList] = "/x".toList := by
  decide

/-- More fuel than the length of the unread path does not change `cleanLoop`: the fuel
`len(path)` given by `pathClean` never runs out. -/
theorem cleanLoop_fuel (rooted : Bool) :
    ∀ (n : Nat) (rem out : List Char) (dotdot f1 f2 : Nat), rem.length ≤ n →
      rem.length ≤ f1 → rem.length ≤ f2 →
      cleanLoop rooted f1 rem out dotdot = cleanLoop rooted f2 rem out dotdot := by
  intro n
  induction n with
  | zero =>
    intro rem out dotdot f1 f2 hn _ _
    have : rem = [] := List.length_eq_zero.1 (by omega)
    subst this
    cases f1 <;> cases f2 <;> simp [cleanLoop]
  | succ n ih =>
    intro rem out dotdot f1 f2 hn h1 h2
    cases rem with
    | nil => cases f1 <;> cases f2 <;> simp [cleanLoop]
    | cons c rest =>
      simp only [List.length_cons] at hn h1 h2
      obtain ⟨g1, rfl⟩ : ∃ g, f1 = g + 1 := ⟨f1 - 1, by omega⟩
      obtain ⟨g2, rfl⟩ : ∃ g, f2 = g + 1 := ⟨f2 - 1, by omega⟩
      have hdrop : (rest.drop 1).length ≤ rest.length := by simp
      by_cases hc : c = '/'
      · simp only [cleanLoop, if_pos hc]
        exact ih _ _ _ _ _ (by omega) (by omega) (by omega)
      · have hdw : ((c :: rest).dropWhile (fun x => x != '/')).length ≤ rest.length := by
          rw [List.dropWhile_cons, if_pos (by simpa using hc)]
          exact (List.dropWhile_sublist _).length_le
        simp only [cleanLoop, if_neg hc]
        split_ifs <;> exact ih _ _ _ _ _ (by omega) (by omega) (by omega)

/-- More fuel than the length of the base left does not change `relLoop`: the fuel
`len(base) + 1` given by `filepathRel` never runs out. -/
theorem relLoop_fuel :
    ∀ (n : Nat) (b t : List Char) (f1 f2 : Nat), b.length ≤ n → b.length < f1 → b.length < f2 →
      relLoop f1 b t = relLoop f2 b t := by
  intro n
  induction n with
  | zero =>
    intro b t f1 f2 hn h1 h2
    have : b = [] := List.length_eq_zero.1 (by omega)
    subst this
    obtain ⟨g1, rfl⟩ : ∃ g, f1 = g + 1 := ⟨f1 - 1, by omega⟩
    obtain ⟨g2, rfl⟩ : ∃ g, f2 = g + 1 := ⟨f2 - 1, by omega⟩
    simp [relLoop]
  | succ n ih =>
    intro b t f1 f2 hn h1 h2
    obtain ⟨g1, rfl⟩ : ∃ g, f1 = g + 1 := ⟨f1 - 1, by omega⟩
    obtain ⟨g2, rfl⟩ : ∃ g, f2 = g + 1 := ⟨f2 - 1, by omega⟩
    cases b with
    | nil => simp [relLoop]
    | cons c rest =>
      simp only [List.length_cons] at hn h1 h2
      have hlen : (((c :: rest).dropWhile (fun x => x != '/')).drop 1).length ≤ rest.length := by
        by_cases hc : c = '/'
        · subst hc
          simp
        · rw [List.dropWhile_cons, if_pos (by simpa using hc), List.length_drop]
          have := (List.dropWhile_sublist (l := rest) (fun x => x != '/')).length_le
          omega
      simp only [relLoop]
      split_ifs <;> first | rfl | exact ih _ _ _ _ (by omega) (by omega) (by omega)

/-! ## Clean paths are fixed by `path.Clean`, and `filepath.Rel` below a directory -/

theorem takeWhile_seg (s : List Char) (hs : '/' ∉ s) :
    (∀ t, (s ++ '/' :: t).takeWhile (fun x => x != '/') = s)
      ∧ s.takeWhile (fun x => x != '/') = s := by
  induction s with
  | nil => simp
  | cons c s ih =>
    have hc : c ≠ '/' := fun h => hs (by simp [h])
    have hs' : '/' ∉ s := fun h => hs (List.mem_cons_of_mem _ h)
    obtain ⟨ih1, ih2⟩ := ih hs'
    constructor
    · intro t
      simp [List.takeWhile_cons, hc, ih1 t]
    · simp [List.takeWhile_cons, hc, ih2]

theorem dropWhile_seg (s : List Char) (hs : '/' ∉ s) :
    (∀ t, (s ++ '/' :: t).dropWhile (fun x => x != '/') = '/' :: t)
      ∧ s.dropWhile (fun x => x != '/') = [] := by
  induction s with
  | nil => simp
  | cons c s ih =>
    have hc : c ≠ '/' := fun h => hs (by simp [h])
    have hs' : '/' ∉ s := fun h => hs (List.mem_cons_of_mem _ h)
    obtain ⟨ih1, ih2⟩ := ih hs'
    constructor
    · intro t
      simp [List.dropWhile_cons, hc, ih1 t]
    · simp [List.dropWhile_cons, hc, ih2]

theorem takeWhile_seg_tail (s t : List Char) (hs : '/' ∉ s) (ht : SegTail t) :
    (s ++ t).takeWhile (fun x => x != '/') = s := by
  rcases ht with rfl | ⟨u, rfl⟩
  · rw [List.append_nil]; exact (takeWhile_seg s hs).2
  · exact (takeWhile_seg s hs).1 u

theorem dropWhile_seg_tail (s t : List Char) (hs : '/' ∉ s) (ht : SegTail t) :
    (s ++ t).dropWhile (fun x => x != '/') = t := by
  rcases ht with rfl | ⟨u, rfl⟩
  · rw [List.append_nil]; exact (dropWhile_seg s hs).2
  · exact (dropWhile_seg s hs).1 u

theorem atSegEnd_append (s t : List Char) (hs : '/' ∉ s) (hne : s ≠ []) :
    atSegEnd (s ++ t) = false := by
  cases s with
  | nil => exact absurd rfl hne
  | cons c s =>
    have hc : c ≠ '/' := fun h => hs (by simp [h])
    simp [atSegEnd, hc]

theorem cleanLoop_seg (s t out : List Char) (fuel dotdot : Nat) (hs : ValidSeg s)
    (ht : SegTail t) :
    cleanLoop true (fuel + 1) (s ++ t) out dotdot =
      cleanLoop true fuel t ((if out.length ≠ 1 then out ++ ['/'] else out) ++ s) dotdot := by
  obtain ⟨hne, hslash, hdot, hdotdot⟩ := hs
  cases s with
  | nil => exact absurd rfl hne
  | cons c s =>
    have hc : c ≠ '/' := fun h => hslash (by simp [h])
    have hs' : '/' ∉ s := fun h => hslash (List.mem_cons_of_mem _ h)
    have h2 : ¬ (c = '.' ∧ atSegEnd (s ++ t) = true) := by
      rintro ⟨rfl, h⟩
      have hsne : s ≠ [] := fun h' => hdot (by rw [h'])
      rw [atSegEnd_append s t hs' hsne] at h
      cases h
    have h3 : ¬ (c = '.' ∧ (s ++ t).head? = some '.' ∧ atSegEnd ((s ++ t).drop 1) = true) := by
      rintro ⟨rfl, hh, h⟩
      cases s with
      | nil => exact hdot rfl
      | cons d s =>
        simp only [List.cons_append, List.head?_cons, Option.some.injEq] at hh
        subst hh
        have hsne : s ≠ [] := fun h' => hdotdot (by rw [h'])
        have hs2 : '/' ∉ s := fun h => hs' (List.mem_cons_of_mem _ h)
        simp only [List.cons_append, List.drop_succ_cons, List.drop_zero] at h
        rw [atSegEnd_append s t hs2 hsne] at h
        cases h
    rw [List.cons_append, cleanLoop, if_neg hc, if_neg h2, if_neg h3, ← List.cons_append,
      dropWhile_seg_tail _ _ hslash ht, takeWhile_seg_tail _ _ hslash ht]
    simp

theorem segTail_joinSegs (rest : List (List Char)) :
    SegTail (match rest with | [] => [] | t :: r => '/' :: joinSegs (t :: r)) := by
  cases rest with
  | nil => exact Or.inl rfl
  | cons t r => exact Or.inr ⟨_, rfl⟩

theorem joinSegs_cons (s : List Char) (rest : List (List Char)) :
    joinSegs (s :: rest) = s ++ (match rest with | [] => [] | t :: r => '/' :: joinSegs (t :: r)) := by
  cases rest with
  | nil => simp [joinSegs]
  | cons t r => simp [joinSegs]

theorem cleanLoop_joinSegs (segs : List (List Char)) :
    ∀ (fuel : Nat) (out : List Char) (dotdot : Nat), segs ≠ [] → (∀ s ∈ segs, ValidSeg s) →
      (joinSegs segs).length ≤ fuel →
      cleanLoop true fuel (joinSegs segs) out dotdot =
        (if out.length ≠ 1 then out ++ ['/'] else out) ++ joinSegs segs := by
  induction segs with
  | nil => intro _ _ _ h; exact absurd rfl h
  | cons s rest ih =>
    intro fuel out dotdot _ hv hfuel
    have hs : ValidSeg s := hv s (List.mem_cons_self _ _)
    have hlen : 1 ≤ s.length := List.length_pos.2 hs.1
    cases rest with
    | nil =>
      simp only [joinSegs] at hfuel ⊢
      obtain ⟨f, rfl⟩ : ∃ f, fuel = f + 1 := ⟨fuel - 1, by omega⟩
      have := cleanLoop_seg s [] out f dotdot hs (Or.inl rfl)
      rw [List.append_nil] at this
      rw [this]
      cases f <;> simp [cleanLoop]
    | cons t r =>
      simp only [joinSegs, List.length_append, List.length_cons] at hfuel ⊢
      obtain ⟨f, rfl⟩ : ∃ f, fuel = f + 2 := ⟨fuel - 2, by omega⟩
      rw [cleanLoop_seg s _ out (f + 1) dotdot hs (Or.inr ⟨_, rfl⟩), cleanLoop, if_pos rfl,
        ih f _ dotdot (by simp) (fun x hx => hv x (List.mem_cons_of_mem _ hx)) (by omega)]
      have hlen2 : ((if out.length ≠ 1 then out ++ ['/'] else out) ++ s).length ≠ 1 := by
        split <;> simp <;> omega
      rw [if_pos hlen2]
      simp

theorem pathClean_abs (segs : List (List Char)) (hv : ∀ s ∈ segs, ValidSeg s) :
    pathClean ('/' :: joinSegs segs) = '/' :: joinSegs segs := by
  unfold pathClean
  simp only [List.cons_ne_nil, if_false, List.head?_cons, decide_True, if_true,
    List.length_cons]
  rw [cleanLoop, if_pos rfl]
  cases segs with
  | nil => cases h : (joinSegs []).length <;> simp [joinSegs, cleanLoop]
  | cons s rest =>
    rw [cleanLoop_joinSegs (s :: rest) _ _ _ (by simp) hv (le_refl _)]
    simp

theorem length_joinSegs_pos (segs : List (List Char)) (hne : segs ≠ [])
    (hv : ∀ s ∈ segs, ValidSeg s) : 0 < (joinSegs segs).length := by
  cases segs with
  | nil => exact absurd rfl hne
  | cons s rest =>
    have hlen : 1 ≤ s.length := List.length_pos.2 (hv s (List.mem_cons_self _ _)).1
    rw [joinSegs_cons, List.length_append]
    omega

theorem relLoop_joinSegs (ps ms : List (List Char)) :
    ∀ (fuel : Nat), (∀ s ∈ ms, ValidSeg s) → (joinSegs ms).length ≤ fuel →
      relLoop fuel (joinSegs ms) (joinSegs (ms ++ ps)) = ([], [], joinSegs ps) := by
  induction ms with
  | nil =>
    intro fuel _ _
    cases fuel <;> simp [relLoop, joinSegs]
  | cons m rest ih =>
    intro fuel hv hfuel
    have hm : ValidSeg m := hv m (List.mem_cons_self _ _)
    have hlen : 1 ≤ m.length := List.length_pos.2 hm.1
    have hfuel' := hfuel
    rw [joinSegs_cons, List.length_append] at hfuel'
    obtain ⟨f, rfl⟩ : ∃ f, fuel = f + 1 := ⟨fuel - 1, by omega⟩
    have hb : joinSegs (m :: rest) ≠ [] := by
      rw [joinSegs_cons]; intro h; exact hm.1 (List.append_eq_nil.1 h).1
    have ht : joinSegs (m :: rest ++ ps) ≠ [] := by
      rw [List.cons_append, joinSegs_cons]; intro h; exact hm.1 (List.append_eq_nil.1 h).1
    have hbt : (joinSegs (m :: rest)).takeWhile (fun x => x != '/') = m := by
      rw [joinSegs_cons]; exact takeWhile_seg_tail _ _ hm.2.1 (segTail_joinSegs rest)
    have htt : (joinSegs (m :: rest ++ ps)).takeWhile (fun x => x != '/') = m := by
      rw [List.cons_append, joinSegs_cons]
      exact takeWhile_seg_tail _ _ hm.2.1 (segTail_joinSegs (rest ++ ps))
    have hbd : ((joinSegs (m :: rest)).dropWhile (fun x => x != '/')).drop 1 = joinSegs rest := by
      rw [joinSegs_cons, dropWhile_seg_tail _ _ hm.2.1 (segTail_joinSegs rest)]
      cases rest <;> simp [joinSegs]
    have htd : ((joinSegs (m :: rest ++ ps)).dropWhile (fun x => x != '/')).drop 1
        = joinSegs (rest ++ ps) := by
      rw [List.cons_append, joinSegs_cons,
        dropWhile_seg_tail _ _ hm.2.1 (segTail_joinSegs (rest ++ ps))]
      cases h : rest ++ ps <;> simp [joinSegs]
    have hrestlen : (joinSegs rest).length ≤ f := by
      have : (joinSegs rest).length
          ≤ (match rest with | [] => [] | t :: r => '/' :: joinSegs (t :: r)).length := by
        cases rest <;> simp [joinSegs]
      omega
    rw [relLoop, if_neg (not_or.2 ⟨hb, ht⟩), hbt, htt, if_neg (by simp), hbd, htd]
    exact ih f (fun s hs => hv s (List.mem_cons_of_mem _ hs)) hrestlen

theorem joinSegs_append_ne (ms ps : List (List Char)) (hps : ps ≠ [])
    (hv : ∀ s ∈ ps, ValidSeg s) : joinSegs (ms ++ ps) ≠ joinSegs ms := by
  induction ms with
  | nil =>
    intro h
    have := length_joinSegs_pos ps hps hv
    rw [List.nil_append] at h
    rw [h] at this
    simp [joinSegs] at this
  | cons m rest ih =>
    intro h
    rw [List.cons_append, joinSegs_cons, joinSegs_cons, List.append_cancel_left_eq] at h
    cases rest with
    | nil =>
      cases hp : ([] : List (List Char)) ++ ps with
      | nil => exact hps (by simpa using hp)
      | cons a b => rw [hp] at h; simp at h
    | cons t r =>
      simp only [List.cons_append, List.cons.injEq, true_and] at h
      exact ih (by simpa using h)

theorem filepathRel_below (ms ps : List (List Char)) (hps : ps ≠ [])
    (hms : ∀ s ∈ ms, ValidSeg s) (hpv : ∀ s ∈ ps, ValidSeg s) :
    filepathRel ('/' :: joinSegs ms) ('/' :: joinSegs (ms ++ ps)) = some (joinSegs ps) := by
  have hall : ∀ s ∈ ms ++ ps, ValidSeg s := by
    intro s hs
    rcases List.mem_append.1 hs with h | h
    · exact hms s h
    · exact hpv s h
  have hne : ('/' :: joinSegs (ms ++ ps)) ≠ '/' :: joinSegs ms := by
    intro h
    exact joinSegs_append_ne ms ps hps hpv (List.cons.inj h).2
  have h1 : ('/' :: joinSegs ms) ≠ ['.'] := by simp
  have hloop : relLoop (('/' :: joinSegs ms).length + 1) ('/' :: joinSegs ms)
      ('/' :: joinSegs (ms ++ ps)) = ([], [], joinSegs ps) := by
    rw [relLoop, if_neg (by simp)]
    simp only [List.takeWhile_cons, bne_self_eq_false, Bool.false_eq_true, if_false, ne_eq,
      not_true_eq_false, List.dropWhile_cons, List.drop_succ_cons, List.drop_zero]
    exact relLoop_joinSegs ps ms _ hms (by simp)
  unfold filepathRel
  simp only [pathClean_abs ms hms, pathClean_abs (ms ++ ps) hall, if_neg hne, if_neg h1, hloop]
  simp

theorem filepathRel_self (ms : List (List Char)) :
    filepathRel ('/' :: joinSegs ms) ('/' :: joinSegs ms) = some ['.'] := by
  simp [filepathRel]

theorem pathJoin_start (ps : List (List Char)) (hps : ps ≠ []) (hpv : ∀ s ∈ ps, ValidSeg s) :
    pathJoin ["/start".toList, joinSegs ps] = "/start/".toList ++ joinSegs ps := by
  have hpos := length_joinSegs_pos ps hps hpv
  have hne : joinSegs ps ≠ [] := List.length_pos.1 hpos
  have hbuf : joinBuf [] ["/start".toList, joinSegs ps]
      = '/' :: joinSegs ("start".toList :: ps) := by
    cases ps with
    | nil => exact absurd rfl hps
    | cons p r => simp [joinBuf, joinSegs]
  have hv : ∀ s ∈ "start".toList :: ps, ValidSeg s := by
    intro s hs
    rcases List.mem_cons.1 hs with rfl | h
    · decide
    · exact hpv s h
  unfold pathJoin
  rw [if_neg (by simp), hbuf, pathClean_abs _ hv]
  cases ps with
  | nil => exact absurd rfl hps
  | cons p r => simp [joinSegs]

theorem pathJoin_start_dot : pathJoin ["/start".toList, ['.']] = "/start".toList := by
  decide

theorem buildDockerFlags_module (w : World) (env : GoEnv) (wd : String) (mod : GoMod)
    (rel : List Char) (henv : w.goEnv = .ok env) (hwd : w.getwd = .ok wd)
    (hm : env.GOMOD ≠ "" ∧ env.GOMOD ≠ devNull w.goos) (hmod : w.goListM = .ok mod)
    (hrel : filepathRel mod.Dir.toList wd.toList = some rel) :
    buildDockerFlags w =
      (.ok (cacheFlags env ++
          ["--volume=" ++ mod.Dir ++ ":/start",
            "--workdir=" ++ String.mk (pathJoin ["/start".toList, rel])]),
        [Event.exec "go" ["env", "-json"], Event.exec "go" ["list", "-m", "-json"]]) := by
  simp only [buildDockerFlags, henv, hwd, if_pos hm, hmod, hrel]

/-! ## `testDef` -/

theorem egWait_of_failure (order : List Nat) (results : List (Except String String))
    (i : Nat) (err : String) (hi : i ∈ order) (hr : results.get? i = some (.error err)) :
    ∃ j err', results.get? j = some (.error err') ∧ egWait order results = some err' := by
  induction order with
  | nil => cases hi
  | cons a order ih =>
    unfold egWait
    rw [List.findSome?_cons]
    rcases hres : results.get? a with _ | r
    · rcases List.mem_cons.1 hi with rfl | h
      · rw [hr] at hres; cases hres
      · exact ih h
    · cases r with
      | error e => exact ⟨a, e, hres, rfl⟩
      | ok v =>
        rcases List.mem_cons.1 hi with rfl | h
        · rw [hr] at hres; cases hres
        · exact ih h

theorem egWait_of_success (order : List Nat) (results : List (Except String String))
    (h : ∀ r ∈ results, ∃ v, r = .ok v) : egWait order results = none := by
  unfold egWait
  rw [List.findSome?_eq_none_iff]
  intro i _
  rcases hres : results.get? i with _ | r
  · rfl
  · obtain ⟨v, rfl⟩ := h r (List.get?_mem hres)
    rfl

theorem launched_map_goResolve (args : List String) :
    launched (args.map TestEvent.goResolve) = args := by
  induction args with
  | nil => rfl
  | cons a args ih => simp [launched, List.filterMap_cons] at ih ⊢; exact ih

theorem launched_eq_nil (evs : List TestEvent) (h : ∀ ev ∈ evs, ∀ v, ev ≠ .goResolve v) :
    launched evs = [] := by
  unfold launched
  rw [List.filterMap_eq_nil_iff]
  intro ev hev
  cases ev <;> first | rfl | exact absurd rfl (h _ hev _)

theorem runTests_events (w : TestWorld) (c : Command) (args : List String)
    (self gitRoot overlayDir : String) :
    ∀ ev ∈ (runTests w c args self gitRoot overlayDir).2, LaterEvent ev := by
  unfold runTests LaterEvent
  simp only []
  split
  · split <;> simp
  · split <;> simp

theorem withDeferred_events (evs : List TestEvent) (r : Outcome × List TestEvent)
    (h1 : ∀ ev ∈ evs, LaterEvent ev) (h2 : ∀ ev ∈ r.2, LaterEvent ev) :
    ∀ ev ∈ (withDeferred evs r).2, LaterEvent ev := by
  unfold withDeferred
  intro ev hev
  rcases List.mem_append.1 hev with h | h
  · exact h2 ev h
  · exact h1 ev h

theorem withSelf_events (w : TestWorld) (c : Command) (args : List String)
    (selfDir gitRoot overlayDir : String) :
    ∀ ev ∈ (withSelf w c args selfDir gitRoot overlayDir).2, LaterEvent ev := by
  unfold withSelf
  split
  · split
    · simp [LaterEvent]
    · split
      · simp [LaterEvent]
      · split
        · simp [LaterEvent]
        · intro ev hev
          rcases List.mem_append.1 hev with h | h
          · revert h; simp only [List.mem_cons, List.mem_singleton, List.not_mem_nil, or_false]
            rintro (rfl | rfl | rfl) <;> simp [LaterEvent]
          · exact withDeferred_events _ _ (by simp [LaterEvent])
              (runTests_events w c args _ gitRoot overlayDir) ev h
  · exact runTests_events w c args "" gitRoot overlayDir

theorem withOverlay_events (w : TestWorld) (c : Command) (args : List String)
    (selfDir gitRoot : String) :
    ∀ ev ∈ (withOverlay w c args selfDir gitRoot).2, LaterEvent ev := by
  have hbuild : ∀ (overlayDir : String) (evs : List TestEvent), (∀ ev ∈ evs, LaterEvent ev) →
      ∀ ev ∈ (match w.newBuildHelper with
        | some err => (Outcome.returned (some (TestErr.buildHelper err)),
            evs ++ [TestEvent.newBuildHelper])
        | none =>
          ((withDeferred [.cacheTrim] (withSelf w c args selfDir gitRoot overlayDir)).1,
            evs ++ [TestEvent.newBuildHelper]
              ++ (withDeferred [.cacheTrim] (withSelf w c args selfDir gitRoot overlayDir)).2)).2,
        LaterEvent ev := by
    intro overlayDir evs hevs
    split
    · intro ev hev
      rcases List.mem_append.1 hev with h | h
      · exact hevs ev h
      · revert h; simp only [List.mem_singleton]; rintro rfl; simp [LaterEvent]
    · intro ev hev
      rcases List.mem_append.1 hev with h | h
      · rcases List.mem_append.1 h with h | h
        · exact hevs ev h
        · revert h; simp only [List.mem_singleton]; rintro rfl; simp [LaterEvent]
      · exact withDeferred_events _ _ (by simp [LaterEvent])
          (withSelf_events w c args selfDir gitRoot overlayDir) ev h
  unfold withOverlay
  simp only []
  split
  · split
    · simp [LaterEvent]
    · split
      · simp [LaterEvent]
      · split
        · simp [LaterEvent]
        · exact hbuild _ _ (by simp [LaterEvent])
  · exact hbuild _ _ (by simp)

theorem afterResolve_events (w : TestWorld) (c : Command) (args : List String) :
    ∀ ev ∈ (afterResolve w c args).2, LaterEvent ev := by
  unfold afterResolve
  simp only []
  split
  · simp [LaterEvent]
  · split
    · simp [LaterEvent]
    · split
      · simp [LaterEvent]
      · intro ev hev
        rcases List.mem_append.1 hev with h | h
        · revert h; simp only [List.mem_cons, List.mem_singleton, List.not_mem_nil, or_false]
          rintro (rfl | rfl) <;> simp [LaterEvent]
        · exact withOverlay_events w c args _ _ ev h

theorem testDef_resolved (w : TestWorld) (c : Command) (args : List String)
    (hvr : w.newVersionResolver (!c.flagTestNoPath) = none)
    (hwait : egWait w.finishOrder (args.map w.resolve) = none) :
    testDef w c args =
      ((afterResolve w c args).1,
        .newVersionResolver (!c.flagTestNoPath) :: args.map TestEvent.goResolve
          ++ (afterResolve w c args).2) := by
  simp [testDef, hvr, preResolve, hwait]

theorem testDef_unresolved (w : TestWorld) (c : Command) (args : List String) (err : String)
    (hvr : w.newVersionResolver (!c.flagTestNoPath) = none)
    (hwait : egWait w.finishOrder (args.map w.resolve) = some err) :
    testDef w c args =
      (.returned (some (.preResolve args err)),
        .newVersionResolver (!c.flagTestNoPath) :: args.map TestEvent.goResolve) := by
  simp [testDef, hvr, preResolve, hwait]

/-! ## Properties of `dockexec` -/

/-- C1: for an argument list of at least two elements, if `k` is the smallest index of
`rest = args[1:]` whose element does not start with `-` and matches `rxBinary`, the split
of `dockexecDef` is `dockerFlags = rest[:k]`, `binary = rest[k]`, `testFlags = rest[k+1:]`;
the three parts make up `rest` again, and the command does not report a missing binary. -/
theorem dockexecDef_split_first_match (w : World) (args : List String) (k : Nat) (b : String)
    (hlen : 2 ≤ args.length)
    (hk : (args.drop 1)[k]? = some b)
    (hb : hasPrefix b "-" = false ∧ matchString rxBinary b = true)
    (hmin : ∀ j a, j < k → (args.drop 1)[j]? = some a →
      ¬ (hasPrefix a "-" = false ∧ matchString rxBinary a = true)) :
    splitArgs (args.drop 1) = ⟨(args.drop 1).take k, b, (args.drop 1).drop (k + 1)⟩
      ∧ (args.drop 1).take k ++ [b] ++ (args.drop 1).drop (k + 1) = args.drop 1
      ∧ (dockexecDef w args).1 ≠ some Err.noBinary := by
  have hsplit : splitArgs (args.drop 1)
      = ⟨(args.drop 1).take k, b, (args.drop 1).drop (k + 1)⟩ := by
    have h := splitFrom_of_first (args.drop 1) (args.drop 1) 0 k b rfl hk
      ((isBinaryArg_iff b).2 hb)
      (fun j a hj ha => by
        have := hmin j a hj ha
        rw [← isBinaryArg_iff] at this
        simpa using this)
    simpa [splitArgs] using h
  refine ⟨hsplit, ?_, ?_⟩
  · have hlt : k < (args.drop 1).length := by
      by_contra hge
      rw [List.getElem?_eq_none (by omega)] at hk
      cases hk
    have hget : (args.drop 1)[k] = b := by
      rw [List.getElem?_eq_getElem hlt] at hk
      exact Option.some.inj hk
    rw [List.append_assoc, List.singleton_append, ← hget,
      ← List.drop_eq_getElem_cons hlt, List.take_append_drop]
  · match args, hlen with
    | image :: arg :: more, _ =>
      have hne : (splitArgs (arg :: more)).binary ≠ "" := by
        have : (splitArgs (arg :: more)).binary = b := by
          have := congrArg Split.binary hsplit
          simpa using this
        rw [this]
        exact ne_empty_of_isBinaryArg b ((isBinaryArg_iff b).2 hb)
      intro hres
      have hev := dockexecDef_events_ne_nil w image arg more hne
      revert hres hev
      simp only [dockexecDef, hne, if_false]
      cases w.mkdirTemp with
      | error e => simp
      | ok t =>
        cases w.userHomeDir with
        | error e => simp
        | ok r =>
          rcases hbd : buildDockerFlags w with ⟨res, evs⟩
          cases res with
          | error e =>
            have := buildDockerFlags_ne_noBinary w
            rw [hbd] at this
            simpa using this
          | ok c => simp

/-- Witness for C1: in `-v /a/exe/b /tmp/x.test -test.v` the value `/a/exe/b` of the docker
flag `-v` is the first match, so it is taken as the binary although the test binary
comes later. -/
theorem dockexecDef_split_first_match_witness :
    splitArgs ["-v", "/a/exe/b", "/tmp/x.test", "-test.v"]
        = ⟨["-v"], "/a/exe/b", ["/tmp/x.test", "-test.v"]⟩
      ∧ ["-v"] ++ ["/a/exe/b"] ++ ["/tmp/x.test", "-test.v"]
        = ["-v", "/a/exe/b", "/tmp/x.test", "-test.v"]
      ∧ (dockexecDef adHocWorld
          ["example/img:tag", "-v", "/a/exe/b", "/tmp/x.test", "-test.v"]).1
        ≠ some Err.noBinary :=
  dockexecDef_split_first_match adHocWorld
    ["example/img:tag", "-v", "/a/exe/b", "/tmp/x.test", "-test.v"] 1 "/a/exe/b"
    (by decide) (by decide) (by decide)
    (by
      intro j a hj ha
      obtain rfl : j = 0 := by omega
      obtain rfl : "-v" = a := by simpa using ha
      decide)

/-- C3: for an argument list of at least two elements, `dockexecDef` returns the error
`could not find the test binary argument` without having caused any event (no temporary
home, no subprocess) if and only if no element of `args[1:]` both does not start with `-`
and matches `rxBinary`. -/
theorem dockexecDef_noBinary_iff (w : World) (args : List String) (hlen : 2 ≤ args.length) :
    dockexecDef w args = (some Err.noBinary, []) ↔
      ∀ a ∈ args.drop 1, ¬ (hasPrefix a "-" = false ∧ matchString rxBinary a = true) := by
  match args, hlen with
  | image :: arg :: more, _ =>
    have hiff : (splitArgs (arg :: more)).binary = "" ↔
        ∀ a ∈ arg :: more, ¬ (hasPrefix a "-" = false ∧ matchString rxBinary a = true) := by
      rw [splitArgs, splitFrom_binary_eq_empty]
      constructor
      · intro h a ha
        rw [← isBinaryArg_iff, h a ha]
        simp
      · intro h a ha
        have := h a ha
        rw [← isBinaryArg_iff] at this
        simpa using this
    rw [List.drop_one, List.tail_cons, ← hiff]
    constructor
    · intro h
      by_contra hne
      have := dockexecDef_events_ne_nil w image arg more hne
      rw [h] at this
      exact this rfl
    · exact dockexecDef_of_no_binary w image arg more

/-- Witness for C3: `-v -x.test plain` has no element of the binary shape that does not
start with `-`, and the command stops with the input error before doing anything. -/
theorem dockexecDef_noBinary_iff_witness :
    dockexecDef adHocWorld ["example/img:tag", "-v", "-x.test", "plain"]
        = (some Err.noBinary, []) ↔
      ∀ a ∈ ["-v", "-x.test", "plain"],
        ¬ (hasPrefix a "-" = false ∧ matchString rxBinary a = true) :=
  dockexecDef_noBinary_iff adHocWorld ["example/img:tag", "-v", "-x.test", "plain"]
    (by decide)

/-- C9: whenever `dockexecDef` gets past the split (at least two arguments, no
missing-binary error), the chosen binary is non-empty, does not start with `-`, matches
`rxBinary`, and has the shape the specification words: it ends with `.test` or `.test.exe`,
or with a path segment `exe/<name>`, an optional `.<ext>` and an optional `.exe`, `<name>`
and `<ext>` being non-empty runs of letters, digits and underscores.  Every string that
`rxBinary` matches has that shape. -/
theorem dockexecDef_binary_shape (w : World) (image : String) (rest : List String)
    (hrest : rest ≠ [])
    (hok : (dockexecDef w (image :: rest)).1 ≠ some Err.noBinary) :
    (splitArgs rest).binary ≠ ""
      ∧ hasPrefix (splitArgs rest).binary "-" = false
      ∧ matchString rxBinary (splitArgs rest).binary = true
      ∧ specShape (splitArgs rest).binary = true
      ∧ ∀ s : String, matchString rxBinary s = true → specShape s = true := by
  match rest, hrest with
  | arg :: more, _ =>
    have hne : (splitArgs (arg :: more)).binary ≠ "" := by
      intro h
      rw [dockexecDef_of_no_binary w image arg more h] at hok
      exact hok rfl
    have hb := (isBinaryArg_iff _).1 (splitFrom_binary_isBinaryArg _ _ 0 hne)
    exact ⟨hne, hb.1, hb.2, specShape_of_matchString _ hb.2, specShape_of_matchString⟩

/-- Witness for C9: the split of `-e FOO=bar /tmp/b001/exe/main.exe -test.v`. -/
theorem dockexecDef_binary_shape_witness :
    (splitArgs ["-e", "FOO=bar", "/tmp/b001/exe/main.exe", "-test.v"]).binary ≠ ""
      ∧ hasPrefix (splitArgs ["-e", "FOO=bar", "/tmp/b001/exe/main.exe", "-test.v"]).binary "-"
          = false
      ∧ matchString rxBinary
          (splitArgs ["-e", "FOO=bar", "/tmp/b001/exe/main.exe", "-test.v"]).binary = true
      ∧ specShape (splitArgs ["-e", "FOO=bar", "/tmp/b001/exe/main.exe", "-test.v"]).binary
          = true
      ∧ ∀ s : String, matchString rxBinary s = true → specShape s = true :=
  dockexecDef_binary_shape adHocWorld "example/img:tag"
    ["-e", "FOO=bar", "/tmp/b001/exe/main.exe", "-test.v"] (by decide) (by decide)

/-- C2: when the split is `(dockerFlags, binary, testFlags)`, the temporary home is `h`, the
home of the user is `H` and `buildDockerFlags` returns `C`, the subprocess run by
`dockexecDef` gets exactly the fixed flags, then `C`, then `dockerFlags`, then `--` unless
in compose mode, then the image, then `testFlags`; the test flags are the last elements of
the vector, unchanged; the result of the command is that of the subprocess. -/
theorem dockexecDef_argv (w : World) (image : String) (rest dockerFlags testFlags C : List String)
    (binary h H : String) (evs : List Event) (argv : List String)
    (hrest : rest ≠ [])
    (hsplit : splitArgs rest = ⟨dockerFlags, binary, testFlags⟩) (hbin : binary ≠ "")
    (htemp : w.mkdirTemp = .ok h) (hhome : w.userHomeDir = .ok H)
    (hctx : buildDockerFlags w = (.ok C, evs))
    (hargv : argv =
      ["run", "--rm", "--volume=" ++ binary ++ ":/init", "--entrypoint=/init",
        "--user=" ++ toString w.uid ++ ":" ++ toString w.gid,
        "--volume=/etc/passwd:/etc/passwd:ro", "--volume=/etc/group:/etc/group:ro",
        "--volume=" ++ h ++ ":" ++ H,
        "-e", if w.goos = "windows" then "USERPROFILE=" ++ H else "HOME=" ++ H]
      ++ C ++ dockerFlags ++ (if w.fCompose = true then [] else ["--"]) ++ [image]
      ++ testFlags) :
    dockexecDef w (image :: rest) =
        ((w.run (if w.fCompose = true then "docker-compose" else "docker") argv).map Err.os,
          Event.mkdirTemp :: evs
            ++ [Event.exec (if w.fCompose = true then "docker-compose" else "docker") argv]
            ++ cleanup w h)
      ∧ argv.drop (argv.length - testFlags.length) = testFlags := by
  have hall : allDockerArgs w image (splitArgs rest) h H C = argv := by
    rw [hargv, hsplit]
    unfold allDockerArgs fixedArgs
    by_cases hw : w.goos = "windows" <;> by_cases hc : w.fCompose = true <;> simp [hw, hc]
  constructor
  · match rest, hrest with
    | arg :: more, _ =>
      have hb : (splitArgs (arg :: more)).binary ≠ "" := by rw [hsplit]; exact hbin
      rw [dockexecDef_run w image arg more C h H evs hb htemp hhome hctx, hall]
  · rw [hargv]
    generalize ["run", "--rm", "--volume=" ++ binary ++ ":/init", "--entrypoint=/init",
        "--user=" ++ toString w.uid ++ ":" ++ toString w.gid,
        "--volume=/etc/passwd:/etc/passwd:ro", "--volume=/etc/group:/etc/group:ro",
        "--volume=" ++ h ++ ":" ++ H,
        "-e", if w.goos = "windows" then "USERPROFILE=" ++ H else "HOME=" ++ H]
      ++ C ++ dockerFlags ++ (if w.fCompose = true then [] else ["--"]) ++ [image] = front
    rw [List.length_append, Nat.add_sub_cancel, List.drop_left]

/-- Witness for C2: the end-to-end example of the specification, image `example/img:tag`,
docker flags `-e FOO=bar`, binary `/tmp/x.test`, test flag `-test.run=TestX`, on a
Linux host in ad hoc mode. -/
theorem dockexecDef_argv_witness :
    dockexecDef adHocWorld
        ["example/img:tag", "-e", "FOO=bar", "/tmp/x.test", "-test.run=TestX"] =
      (none,
        [Event.mkdirTemp, Event.exec "go" ["env", "-json"],
          Event.exec "docker"
            ["run", "--rm", "--volume=/tmp/x.test:/init", "--entrypoint=/init",
              "--user=1000:1000", "--volume=/etc/passwd:/etc/passwd:ro",
              "--volume=/etc/group:/etc/group:ro",
              "--volume=/tmp/dockexec-home1:/home/gopher", "-e", "HOME=/home/gopher",
              "--volume=/home/gopher/go/pkg/mod:/gomodcache", "-e", "GOMODCACHE=/gomodcache",
              "--volume=/home/gopher/.cache/go-build:/gocache", "-e", "GOCACHE=/gocache",
              "--volume=/tmp/proj:/start", "--workdir=/start",
              "-e", "FOO=bar", "--", "example/img:tag", "-test.run=TestX"],
          Event.removeAll "/tmp/dockexec-home1"])
      ∧ List.drop (23 - 1)
          ["run", "--rm", "--volume=/tmp/x.test:/init", "--entrypoint=/init",
            "--user=1000:1000", "--volume=/etc/passwd:/etc/passwd:ro",
            "--volume=/etc/group:/etc/group:ro",
            "--volume=/tmp/dockexec-home1:/home/gopher", "-e", "HOME=/home/gopher",
            "--volume=/home/gopher/go/pkg/mod:/gomodcache", "-e", "GOMODCACHE=/gomodcache",
            "--volume=/home/gopher/.cache/go-build:/gocache", "-e", "GOCACHE=/gocache",
            "--volume=/tmp/proj:/start", "--workdir=/start",
            "-e", "FOO=bar", "--", "example/img:tag", "-test.run=TestX"]
        = ["-test.run=TestX"] := by
  have h := dockexecDef_argv adHocWorld "example/img:tag"
    ["-e", "FOO=bar", "/tmp/x.test", "-test.run=TestX"] ["-e", "FOO=bar"] ["-test.run=TestX"]
    (cacheFlags ⟨"/home/gopher/go/pkg/mod", "/home/gopher/.cache/go-build", ""⟩
      ++ ["--volume=/tmp/proj:/start", "--workdir=/start"])
    "/tmp/x.test" "/tmp/dockexec-home1" "/home/gopher" [Event.exec "go" ["env", "-json"]] _
    (by decide) (by decide) (by decide) rfl rfl rfl rfl
  refine ⟨?_, ?_⟩
  · rw [h.1]
    decide
  · decide

/-- Counterexample for C7 as stated: the caller's docker flags are passed on verbatim, so
with `--volume=/etc/shadow:/etc/shadow:ro` among them the vector run by `dockexecDef`
mounts `/etc/shadow` by its element 18, the first one after the context flags. -/
theorem shadow_mounted_by_caller_flag :
    ∃ argv, Event.exec "docker" argv ∈
        (dockexecDef adHocWorld
          ["example/img:tag", "--volume=/etc/shadow:/etc/shadow:ro", "/tmp/x.test"]).2
      ∧ argv[18]? = some "--volume=/etc/shadow:/etc/shadow:ro"
      ∧ mountsShadowAt argv 18 = true :=
  ⟨allDockerArgs adHocWorld "example/img:tag"
      ⟨["--volume=/etc/shadow:/etc/shadow:ro"], "/tmp/x.test", []⟩
      "/tmp/dockexec-home1" "/home/gopher"
      (cacheFlags ⟨"/home/gopher/go/pkg/mod", "/home/gopher/.cache/go-build", ""⟩
        ++ ["--volume=/tmp/proj:/start", "--workdir=/start"]),
    by decide, by decide, by decide⟩

/-- C7, as amended: every vector `dockexecDef` hands to docker mounts the identity files
`/etc/passwd` and `/etc/group` read-only, and an element by which the vector mounts
`/etc/shadow` (or a directory above it) is never a flag `dockexecDef` or
`buildDockerFlags` chose: it is one of the arguments passed through from the caller (a
docker flag, the image, a test flag), or it is the mount of a host path handed to the
command (the binary, the temporary home, `GOMODCACHE`, `GOCACHE`, the `/start` root) that
is itself `/etc/shadow` or a directory above it. -/
theorem dockexecDef_shadow_only_passed_through (w : World) (image : String)
    (rest argv : List String) (prog : String)
    (hev : Event.exec prog argv ∈ (dockexecDef w (image :: rest)).2) (hprog : prog ≠ "go") :
    ("--volume=/etc/passwd:/etc/passwd:ro" ∈ argv ∧ "--volume=/etc/group:/etc/group:ro" ∈ argv)
      ∧ ∀ i, mountsShadowAt argv i = true →
        ∃ a, argv[i]? = some a
          ∧ (a ∈ (splitArgs rest).dockerFlags ∨ a = image ∨ a ∈ (splitArgs rest).testFlags
            ∨ HostPathMount w (splitArgs rest).binary a) := by
  match rest with
  | [] => simp [dockexecDef] at hev
  | arg :: more =>
    by_cases hbin : (splitArgs (arg :: more)).binary = ""
    · rw [dockexecDef_of_no_binary w image arg more hbin] at hev
      simp at hev
    · rcases htemp : w.mkdirTemp with err | h
      · simp [dockexecDef, hbin, htemp] at hev
      · rcases hhome : w.userHomeDir with err | H
        · have hc := cleanup_events w h
          simp only [dockexecDef, hbin, htemp, hhome, if_false, List.mem_cons] at hev
          rcases hev with hev | hev
          · cases hev
          · exact absurd rfl (hc _ hev prog argv)
        · rcases hctx : buildDockerFlags w with ⟨res, evs⟩
          have hgo := buildDockerFlags_events w
          have hc := cleanup_events w h
          rw [hctx] at hgo
          cases res with
          | error err =>
            simp only [dockexecDef, hbin, htemp, hhome, hctx, if_false, List.mem_cons,
              List.mem_append] at hev
            rcases hev with (hev | hev) | hev
            · cases hev
            · obtain ⟨a, ha⟩ := hgo _ hev
              cases ha
              exact absurd rfl hprog
            · exact absurd rfl (hc _ hev prog argv)
          | ok C =>
            rw [dockexecDef_run w image arg more C h H evs hbin htemp hhome hctx] at hev
            simp only [List.mem_cons, List.mem_append, List.mem_singleton, List.not_mem_nil,
              or_false] at hev
            rcases hev with ((hev | hev) | hev) | hev
            · cases hev
            · obtain ⟨a, ha⟩ := hgo _ hev
              cases ha
              exact absurd rfl hprog
            · simp only [Event.exec.injEq] at hev
              obtain ⟨-, rfl⟩ := hev
              obtain ⟨env, root, dir, henv, hroot, hC⟩ :=
                buildDockerFlags_ok_shape w C (by rw [hctx])
              constructor
              · constructor <;> simp [allDockerArgs, fixedArgs]
              · intro i hi
                unfold mountsShadowAt at hi
                rcases hget : (allDockerArgs w image (splitArgs (arg :: more)) h H C)[i]?
                  with _ | e
                · rw [hget] at hi
                  cases hi
                · rw [hget] at hi
                  simp only [] at hi
                  refine ⟨e, rfl, ?_⟩
                  have he := List.getElem?_mem hget
                  unfold allDockerArgs at he
                  simp only [List.mem_append, List.mem_singleton] at he
                  rcases he with ((((he | he) | he) | he) | he) | he
                  · refine Or.inr (Or.inr (Or.inr ?_))
                    rcases optionMounts_fixedArgs w _ h H e _ he hi with ⟨h1, h2⟩ | ⟨h1, h2⟩
                    · exact ⟨_, ":/init", h1, h2, Or.inl ⟨rfl, rfl⟩⟩
                    · exact ⟨h, ":" ++ H, by rw [h1, String.append_assoc], h2,
                        Or.inr (Or.inl ⟨htemp, H, hhome, rfl⟩)⟩
                  · refine Or.inr (Or.inr (Or.inr ?_))
                    rw [hC] at he
                    rcases optionMounts_contextFlags env root dir e _ he hi
                      with ⟨h1, h2⟩ | ⟨h1, h2⟩ | ⟨h1, h2⟩
                    · exact ⟨_, ":/gomodcache", h1, h2,
                        Or.inr (Or.inr (Or.inl ⟨env, henv, Or.inl ⟨rfl, rfl⟩⟩))⟩
                    · exact ⟨_, ":/gocache", h1, h2,
                        Or.inr (Or.inr (Or.inl ⟨env, henv, Or.inr ⟨rfl, rfl⟩⟩))⟩
                    · exact ⟨root, ":/start", h1, h2, Or.inr (Or.inr (Or.inr ⟨hroot, rfl⟩))⟩
                  · exact Or.inl he
                  · split at he
                    · simp only [List.mem_singleton] at he
                      rw [he, optionMounts_of_not_flag "--" _ (by decide) (by decide) (by decide)
                        (by decide) (by decide)] at hi
                      cases hi
                    · simp at he
                  · exact Or.inr (Or.inl he)
                  · exact Or.inr (Or.inr (Or.inl he))
            · exact absurd rfl (hc _ hev prog argv)

/-- Witness for C7: in the vector built for the caller flag
`--volume=/etc/shadow:/etc/shadow:ro`, where no host path is near `/etc/shadow`, the
elements that mount `/etc/shadow` are arguments passed through from the caller. -/
theorem dockexecDef_shadow_only_passed_through_witness :
    ("--volume=/etc/passwd:/etc/passwd:ro" ∈
          allDockerArgs adHocWorld "example/img:tag"
            ⟨["--volume=/etc/shadow:/etc/shadow:ro"], "/tmp/x.test", []⟩
            "/tmp/dockexec-home1" "/home/gopher"
            (cacheFlags ⟨"/home/gopher/go/pkg/mod", "/home/gopher/.cache/go-build", ""⟩
              ++ ["--volume=/tmp/proj:/start", "--workdir=/start"])
        ∧ "--volume=/etc/group:/etc/group:ro" ∈
          allDockerArgs adHocWorld "example/img:tag"
            ⟨["--volume=/etc/shadow:/etc/shadow:ro"], "/tmp/x.test", []⟩
            "/tmp/dockexec-home1" "/home/gopher"
            (cacheFlags ⟨"/home/gopher/go/pkg/mod", "/home/gopher/.cache/go-build", ""⟩
              ++ ["--volume=/tmp/proj:/start", "--workdir=/start"]))
      ∧ ∀ i, mountsShadowAt
          (allDockerArgs adHocWorld "example/img:tag"
            ⟨["--volume=/etc/shadow:/etc/shadow:ro"], "/tmp/x.test", []⟩
            "/tmp/dockexec-home1" "/home/gopher"
            (cacheFlags ⟨"/home/gopher/go/pkg/mod", "/home/gopher/.cache/go-build", ""⟩
              ++ ["--volume=/tmp/proj:/start", "--workdir=/start"])) i = true →
        ∃ a, (allDockerArgs adHocWorld "example/img:tag"
            ⟨["--volume=/etc/shadow:/etc/shadow:ro"], "/tmp/x.test", []⟩
            "/tmp/dockexec-home1" "/home/gopher"
            (cacheFlags ⟨"/home/gopher/go/pkg/mod", "/home/gopher/.cache/go-build", ""⟩
              ++ ["--volume=/tmp/proj:/start", "--workdir=/start"]))[i]? = some a
          ∧ (a ∈ (splitArgs ["--volume=/etc/shadow:/etc/shadow:ro", "/tmp/x.test"]).dockerFlags
            ∨ a = "example/img:tag"
            ∨ a ∈ (splitArgs ["--volume=/etc/shadow:/etc/shadow:ro", "/tmp/x.test"]).testFlags
            ∨ HostPathMount adHocWorld
                (splitArgs ["--volume=/etc/shadow:/etc/shadow:ro", "/tmp/x.test"]).binary a) :=
  dockexecDef_shadow_only_passed_through adHocWorld "example/img:tag"
    ["--volume=/etc/shadow:/etc/shadow:ro", "/tmp/x.test"] _ "docker" (by decide) (by decide)

/-! ## Properties of `buildDockerFlags` -/

/-- C4: in module-aware mode on a host whose path separator is `/`, when the module root is
the clean absolute path `m` (elements `ms`) and the working directory is `m` itself or `m`
followed by the clean relative path `p` (elements `ps`, none of them `..`),
`buildDockerFlags` mounts `m` as `--volume=<m>:/start` and sets `--workdir=/start/<p>`
(`--workdir=/start` when the working directory is `m`). -/
theorem buildDockerFlags_module_workdir (w : World) (env : GoEnv) (mod : GoMod)
    (ms ps : List String)
    (_hos : w.goos ≠ "windows")
    (hms : ∀ s ∈ ms, ValidSeg s.toList) (hps : ∀ s ∈ ps, ValidSeg s.toList)
    (henv : w.goEnv = .ok env) (hmode : env.GOMOD ≠ "" ∧ env.GOMOD ≠ devNull w.goos)
    (hmod : w.goListM = .ok mod) (hdir : mod.Dir = absPath ms)
    (hwd : w.getwd = .ok (absPath (ms ++ ps))) :
    (buildDockerFlags w).1 = .ok
      (["--volume=" ++ env.GOMODCACHE ++ ":/gomodcache", "-e", "GOMODCACHE=/gomodcache",
        "--volume=" ++ env.GOCACHE ++ ":/gocache", "-e", "GOCACHE=/gocache"]
      ++ ["--volume=" ++ absPath ms ++ ":/start",
          "--workdir=" ++ (if ps = [] then "/start" else "/start/" ++ relPath ps)]) := by
  have hmsv : ∀ s ∈ ms.map String.toList, ValidSeg s := by
    intro s hs
    obtain ⟨x, hx, rfl⟩ := List.mem_map.1 hs
    exact hms x hx
  have hpsv : ∀ s ∈ ps.map String.toList, ValidSeg s := by
    intro s hs
    obtain ⟨x, hx, rfl⟩ := List.mem_map.1 hs
    exact hps x hx
  have hrel : ∃ rel, filepathRel mod.Dir.toList (absPath (ms ++ ps)).toList = some rel
      ∧ String.mk (pathJoin ["/start".toList, rel])
        = (if ps = [] then "/start" else "/start/" ++ relPath ps) := by
    rw [hdir]
    by_cases hp : ps = []
    · subst hp
      refine ⟨['.'], ?_, ?_⟩
      · rw [List.append_nil]
        exact filepathRel_self _
      · rw [pathJoin_start_dot, if_pos rfl]
        rfl
    · refine ⟨joinSegs (ps.map String.toList), ?_, ?_⟩
      · have := filepathRel_below (ms.map String.toList) (ps.map String.toList)
          (by simpa using hp) hmsv hpsv
        simpa [absPath] using this
      · rw [pathJoin_start _ (by simpa using hp) hpsv, if_neg hp]
        rfl
  obtain ⟨rel, hrel1, hrel2⟩ := hrel
  rw [buildDockerFlags_module w env _ mod rel henv hwd hmode hmod hrel1, hrel2, hdir]
  rfl

/-- Witness for C4: module root `/repo`, working directory `/repo/cmd/x`. -/
theorem buildDockerFlags_module_workdir_witness :
    (buildDockerFlags moduleWorld).1 = .ok
      ["--volume=/home/gopher/go/pkg/mod:/gomodcache", "-e", "GOMODCACHE=/gomodcache",
        "--volume=/home/gopher/.cache/go-build:/gocache", "-e", "GOCACHE=/gocache",
        "--volume=/repo:/start", "--workdir=/start/cmd/x"] :=
  buildDockerFlags_module_workdir moduleWorld
    ⟨"/home/gopher/go/pkg/mod", "/home/gopher/.cache/go-build", "/repo/go.mod"⟩
    ⟨"example.com/m", "/repo"⟩ ["repo"] ["cmd", "x"]
    (by decide) (by decide) (by decide) rfl (by decide) rfl rfl rfl

/-- Counterexample for C5 as stated: in ad hoc mode with working directory `/tmp/proj`,
the working directory is mounted at `/start` and the container works in `/start`; no
returned flag sets the container working directory to `/tmp/proj`. -/
theorem adHoc_workdir_is_not_mountRoot :
    (buildDockerFlags adHocWorld).1 = .ok
        ["--volume=/home/gopher/go/pkg/mod:/gomodcache", "-e", "GOMODCACHE=/gomodcache",
          "--volume=/home/gopher/.cache/go-build:/gocache", "-e", "GOCACHE=/gocache",
          "--volume=/tmp/proj:/start", "--workdir=/start"]
      ∧ ¬ ∃ flags, (buildDockerFlags adHocWorld).1 = .ok flags
          ∧ "--workdir=/tmp/proj" ∈ flags := by
  refine ⟨rfl, ?_⟩
  rintro ⟨flags, h, hmem⟩
  have h2 : (buildDockerFlags adHocWorld).1 = .ok
      ["--volume=/home/gopher/go/pkg/mod:/gomodcache", "-e", "GOMODCACHE=/gomodcache",
        "--volume=/home/gopher/.cache/go-build:/gocache", "-e", "GOCACHE=/gocache",
        "--volume=/tmp/proj:/start", "--workdir=/start"] := rfl
  rw [h2] at h
  cases h
  revert hmem
  decide

/-- C5, as amended: in ad hoc mode (`GOMOD` empty or the null device) with working
directory `wd`, `buildDockerFlags` mounts `wd` at `/start` and sets the container working
directory to `/start`, the place where `wd` is mounted; it runs `go env -json` only. -/
theorem buildDockerFlags_adHoc (w : World) (env : GoEnv) (wd : String)
    (henv : w.goEnv = .ok env) (hwd : w.getwd = .ok wd)
    (hmode : env.GOMOD = "" ∨ env.GOMOD = devNull w.goos) :
    buildDockerFlags w =
      (.ok (cacheFlags env ++ ["--volume=" ++ wd ++ ":/start", "--workdir=/start"]),
        [Event.exec "go" ["env", "-json"]]) := by
  have hm : ¬ (env.GOMOD ≠ "" ∧ env.GOMOD ≠ devNull w.goos) := by
    rintro ⟨h1, h2⟩
    rcases hmode with h | h
    · exact h1 h
    · exact h2 h
  simp only [buildDockerFlags, henv, hwd, if_neg hm]

/-- Witness for C5: working directory `/tmp/proj` with an empty `GOMOD`. -/
theorem buildDockerFlags_adHoc_witness :
    buildDockerFlags adHocWorld =
      (.ok (cacheFlags ⟨"/home/gopher/go/pkg/mod", "/home/gopher/.cache/go-build", ""⟩
          ++ ["--volume=" ++ "/tmp/proj" ++ ":/start", "--workdir=/start"]),
        [Event.exec "go" ["env", "-json"]]) :=
  buildDockerFlags_adHoc adHocWorld
    ⟨"/home/gopher/go/pkg/mod", "/home/gopher/.cache/go-build", ""⟩ "/tmp/proj" rfl rfl
    (Or.inl rfl)

/-- C6: after a successful `go env -json` and `os.Getwd`, every list `buildDockerFlags`
returns has eight elements: the six cache flags, one `--volume=<root>:/start` and one
`--workdir=...`.  If `GOMOD` is non-empty and not the null device, the module-aware form is
taken (`go list -m -json` is run, the root is the module directory, the working directory
is joined onto `/start`); otherwise the ad hoc form is taken and is always returned. -/
theorem buildDockerFlags_shape (w : World) (env : GoEnv) (wd : String)
    (henv : w.goEnv = .ok env) (hwd : w.getwd = .ok wd) :
    (∀ flags, (buildDockerFlags w).1 = .ok flags →
        flags.length = 8
        ∧ flags.take 6 =
          ["--volume=" ++ env.GOMODCACHE ++ ":/gomodcache", "-e", "GOMODCACHE=/gomodcache",
            "--volume=" ++ env.GOCACHE ++ ":/gocache", "-e", "GOCACHE=/gocache"]
        ∧ ∃ root dir, flags.drop 6 = ["--volume=" ++ root ++ ":/start", "--workdir=" ++ dir])
      ∧ ((env.GOMOD ≠ "" ∧ env.GOMOD ≠ devNull w.goos) →
          (buildDockerFlags w).2
              = [Event.exec "go" ["env", "-json"], Event.exec "go" ["list", "-m", "-json"]]
          ∧ ∀ mod rel, w.goListM = .ok mod →
              filepathRel mod.Dir.toList wd.toList = some rel →
              (buildDockerFlags w).1 = .ok (cacheFlags env ++
                ["--volume=" ++ mod.Dir ++ ":/start",
                  "--workdir=" ++ String.mk (pathJoin ["/start".toList, rel])]))
      ∧ (¬ (env.GOMOD ≠ "" ∧ env.GOMOD ≠ devNull w.goos) →
          buildDockerFlags w =
            (.ok (cacheFlags env ++ ["--volume=" ++ wd ++ ":/start", "--workdir=/start"]),
              [Event.exec "go" ["env", "-json"]])) := by
  refine ⟨?_, ?_, ?_⟩
  · intro flags hflags
    simp only [buildDockerFlags, henv, hwd] at hflags
    split at hflags
    · split at hflags
      · cases hflags
      · cases hflags
      · split at hflags
        · cases hflags
        · simp only [Except.ok.injEq] at hflags
          subst hflags
          exact ⟨rfl, rfl, _, _, rfl⟩
    · simp only [Except.ok.injEq] at hflags
      subst hflags
      exact ⟨rfl, rfl, wd, "/start", rfl⟩
  · intro hm
    constructor
    · simp only [buildDockerFlags, henv, hwd, if_pos hm]
      split
      · rfl
      · rfl
      · split <;> rfl
    · intro mod rel hmod hrel
      rw [buildDockerFlags_module w env wd mod rel henv hwd hm hmod hrel]
  · intro hm
    simp only [buildDockerFlags, henv, hwd, if_neg hm]

/-- Witness for C6: the module-aware host, where `GOMOD` is `/repo/go.mod`. -/
theorem buildDockerFlags_shape_witness :
    (buildDockerFlags moduleWorld).1 = .ok
        ["--volume=/home/gopher/go/pkg/mod:/gomodcache", "-e", "GOMODCACHE=/gomodcache",
          "--volume=/home/gopher/.cache/go-build:/gocache", "-e", "GOCACHE=/gocache",
          "--volume=/repo:/start", "--workdir=/start/cmd/x"]
      ∧ (buildDockerFlags moduleWorld).2
          = [Event.exec "go" ["env", "-json"], Event.exec "go" ["list", "-m", "-json"]] := by
  have h := buildDockerFlags_shape moduleWorld
    ⟨"/home/gopher/go/pkg/mod", "/home/gopher/.cache/go-build", "/repo/go.mod"⟩
    "/repo/cmd/x" rfl rfl
  have hm := h.2.1 (by decide)
  refine ⟨?_, hm.1⟩
  rw [hm.2 ⟨"example.com/m", "/repo"⟩ "cmd/x".toList rfl (by decide)]
  rfl

/-! ## Properties of `testDef` -/

/-- C8: once the version resolver exists and every started task returns, if resolving at
least one reference fails, `testDef` returns the error `failed to pre-resolve versions`
wrapping the failure of one of the references, after having only created the resolver and
started the resolution tasks: neither `testProject` nor `testCorpus` is called, no docker
image is inspected and no temporary directory is created.  If every reference resolves,
`eg.Wait()` returns no error and `testDef` goes on. -/
theorem testDef_resolution_failure (w : TestWorld) (c : Command) (args : List String)
    (hvr : w.newVersionResolver (!c.flagTestNoPath) = none)
    (hfin : ∀ i, i < args.length → i ∈ w.finishOrder) :
    ((∃ v ∈ args, ∃ err, w.resolve v = .error err) →
        (∃ v ∈ args, ∃ err, w.resolve v = .error err
          ∧ testDef w c args =
            (.returned (some (.preResolve args err)),
              .newVersionResolver (!c.flagTestNoPath) :: args.map TestEvent.goResolve))
        ∧ ∀ ev ∈ (testDef w c args).2,
            (∀ a, ev ≠ .testProject a) ∧ (∀ a, ev ≠ .testCorpus a)
              ∧ (∀ image, ev ≠ .targetDocker image) ∧ ev ≠ .tempDir)
      ∧ ((∀ v ∈ args, ∃ r, w.resolve v = .ok r) →
        (preResolve w args).1 = none
          ∧ testDef w c args =
            ((afterResolve w c args).1,
              .newVersionResolver (!c.flagTestNoPath) :: args.map TestEvent.goResolve
                ++ (afterResolve w c args).2)) := by
  constructor
  · rintro ⟨v, hv, err, herr⟩
    obtain ⟨i, hi, hget⟩ := List.mem_iff_getElem.1 hv
    have hres : (args.map w.resolve).get? i = some (.error err) := by
      rw [List.get?_eq_getElem?, List.getElem?_map, List.getElem?_eq_getElem hi, hget]
      simp [herr]
    obtain ⟨j, err', hj, hwait⟩ :=
      egWait_of_failure w.finishOrder (args.map w.resolve) i err (hfin i hi) hres
    have hrun := testDef_unresolved w c args err' hvr hwait
    constructor
    · rw [List.get?_eq_getElem?, List.getElem?_map] at hj
      rcases hargs : args[j]? with _ | v'
      · rw [hargs] at hj; cases hj
      · rw [hargs] at hj
        simp only [Option.map_some', Option.some.injEq] at hj
        exact ⟨v', List.getElem?_mem hargs, err', hj, hrun⟩
    · intro ev hev
      rw [hrun] at hev
      rcases List.mem_cons.1 hev with rfl | h
      · simp
      · obtain ⟨x, _, rfl⟩ := List.mem_map.1 h
        simp
  · intro hall
    have hwait : egWait w.finishOrder (args.map w.resolve) = none := by
      apply egWait_of_success
      intro r hr
      obtain ⟨v, hv, rfl⟩ := List.mem_map.1 hr
      exact hall v hv
    exact ⟨hwait, testDef_resolved w c args hvr hwait⟩

/-- Witness for C8: of the references `v0.4.3` and `nope` the second does not resolve,
and the run stops there; the list `v0.4.3, v0.4.3` resolves. -/
theorem testDef_resolution_failure_witness :
    ((∃ v ∈ ["v0.4.3", "nope"], ∃ err, sampleTestWorld.resolve v = .error err
        ∧ testDef sampleTestWorld sampleCommand ["v0.4.3", "nope"] =
          (.returned (some (.preResolve ["v0.4.3", "nope"] err)),
            .newVersionResolver (!sampleCommand.flagTestNoPath)
              :: ["v0.4.3", "nope"].map TestEvent.goResolve))
      ∧ ∀ ev ∈ (testDef sampleTestWorld sampleCommand ["v0.4.3", "nope"]).2,
          (∀ a, ev ≠ .testProject a) ∧ (∀ a, ev ≠ .testCorpus a)
            ∧ (∀ image, ev ≠ .targetDocker image) ∧ ev ≠ .tempDir)
      ∧ (preResolve sampleTestWorld ["v0.4.3", "v0.4.3"]).1 = none :=
  ⟨(testDef_resolution_failure sampleTestWorld sampleCommand ["v0.4.3", "nope"]
      rfl (by decide)).1 ⟨"nope", by decide, "unknown version nope", rfl⟩,
    ((testDef_resolution_failure sampleTestWorld sampleCommand ["v0.4.3", "v0.4.3"]
      rfl (by decide)).2 (by
        intro v hv
        have : v = "v0.4.3" := by simpa using hv
        subst this
        exact ⟨"v0.4.3", rfl⟩)).1⟩

/-- Counterexample for C10 as stated: for the list `v0.4.3, v0.4.3`, whose only distinct
reference is `v0.4.3`, `testDef` starts two resolution tasks for `v0.4.3`, not one. -/
theorem duplicate_reference_launched_twice :
    ["v0.4.3", "v0.4.3"].dedup = ["v0.4.3"]
      ∧ (launched (testDef sampleTestWorld sampleCommand ["v0.4.3", "v0.4.3"]).2).count "v0.4.3"
        = 2 := by
  decide

/-- C10, as amended: once the version resolver exists, `testDef` starts exactly one
resolution task per element of the list, in the order of the list, so a reference that
occurs `n` times in the list gets `n` tasks. -/
theorem testDef_one_task_per_element (w : TestWorld) (c : Command) (args : List String)
    (hvr : w.newVersionResolver (!c.flagTestNoPath) = none) :
    launched (testDef w c args).2 = args
      ∧ ∀ v, (launched (testDef w c args).2).count v = args.count v := by
  have hl : launched (testDef w c args).2 = args := by
    have hlater : launched (afterResolve w c args).2 = [] :=
      launched_eq_nil _ fun ev hev => (afterResolve_events w c args ev hev).1
    rcases hwait : egWait w.finishOrder (args.map w.resolve) with _ | err
    · rw [testDef_resolved w c args hvr hwait]
      have : launched (.newVersionResolver (!c.flagTestNoPath)
          :: args.map TestEvent.goResolve ++ (afterResolve w c args).2)
          = launched (args.map TestEvent.goResolve) ++ launched (afterResolve w c args).2 := by
        simp [launched, List.filterMap_append]
      rw [this, hlater, launched_map_goResolve, List.append_nil]
    · rw [testDef_unresolved w c args err hvr hwait]
      have : launched (.newVersionResolver (!c.flagTestNoPath) :: args.map TestEvent.goResolve)
          = launched (args.map TestEvent.goResolve) := by
        simp [launched]
      rw [this, launched_map_goResolve]
  exact ⟨hl, fun v => by rw [hl]⟩

/-- Witness for C10: the list `v0.4.3, v0.4.3` starts two tasks. -/
theorem testDef_one_task_per_element_witness :
    launched (testDef sampleTestWorld sampleCommand ["v0.4.3", "v0.4.3"]).2
        = ["v0.4.3", "v0.4.3"]
      ∧ ∀ v, (launched (testDef sampleTestWorld sampleCommand ["v0.4.3", "v0.4.3"]).2).count v
        = ["v0.4.3", "v0.4.3"].count v :=
  testDef_one_task_per_element sampleTestWorld sampleCommand ["v0.4.3", "v0.4.3"] rfl

end Unity
